import Mathlib

/-!
Verification of the EmpiricalPatternR C++ core (spatial point-pattern
statistics and canopy-cover metrics) against its natural-language
specification.

The C++ sources are shallowly embedded:
 - `double` values are modelled as `ℝ` where `sqrt`/`acos` are involved
   (nearest-neighbour engine, Clark-Evans index, crown overlap) and as `ℚ`
   where the code only compares squared quantities (canopy-cover
   rasterizers, energy reducers), so that those definitions are executable.
 - `Rcpp::NumericVector` is modelled as `List`; `v[i]` becomes `.getD i 0`.
 - `std::priority_queue<double>` (a max-heap) is modelled by its canonical
   sorted-ascending element list: `top` is the last element, `pop` drops
   the last element, `push` is ordered insertion.
 - out-of-bounds reads and other C++ undefined behaviour are modelled with
   `Option` (`none` = undefined).
-/

/-- Sorting a list of reals ascending (used as the canonical form of the
priority-queue contents and to state "k-th smallest" properties). -/
noncomputable def sortL (l : List ℝ) : List ℝ := List.insertionSort (· ≤ ·) l

/-- Model of `priority_queue<double>::top()`: the maximum element.  On the
canonical sorted-ascending representation this is the last element. -/
def pqTop (l : List ℝ) : ℝ := l.getLastD 0

/-- Model of `priority_queue<double>::pop()`: remove the maximum element. -/
def pqPop (l : List ℝ) : List ℝ := l.dropLast

/-- Model of `priority_queue<double>::push(d)`: insert keeping the canonical
sorted order. -/
noncomputable def pqPush (d : ℝ) (l : List ℝ) : List ℝ := List.orderedInsert (· ≤ ·) d l

/-- One offer of a candidate distance `d` to a bounded max-structure, as in
`findNeighbours`: `if(d < q.top()) { q.pop(); q.push(d); }`. -/
noncomputable def offer (l : List ℝ) (d : ℝ) : List ℝ :=
  if d < pqTop l then pqPush d (pqPop l) else l

/-- The default value of `getLastD` is irrelevant on nonempty lists. -/
lemma getLastD_congr {l : List ℝ} (h : l ≠ []) (a b : ℝ) :
    l.getLastD a = l.getLastD b := by
  cases l with
  | nil => exact absurd rfl h
  | cons x xs => rw [List.getLastD_cons, List.getLastD_cons]

lemma pqTop_cons {a : ℝ} {l : List ℝ} (h : l ≠ []) : pqTop (a :: l) = pqTop l := by
  unfold pqTop
  rw [List.getLastD_cons]
  exact getLastD_congr h a 0

lemma pqTop_mem {l : List ℝ} (h : l ≠ []) : pqTop l ∈ l := by
  induction l with
  | nil => exact absurd rfl h
  | cons a t ih =>
    cases t with
    | nil => simp [pqTop]
    | cons b u =>
      rw [pqTop_cons (by simp)]
      exact List.mem_cons_of_mem _ (ih (by simp))

/-- In a sorted-ascending list every element is at most the last one. -/
lemma le_pqTop_of_mem {l : List ℝ} (hs : l.Sorted (· ≤ ·)) :
    ∀ x ∈ l, x ≤ pqTop l := by
  induction l with
  | nil => intro x hx; simp at hx
  | cons a t ih =>
    rcases List.sorted_cons.mp hs with ⟨ha, hst⟩
    intro x hx
    cases t with
    | nil =>
      simp at hx
      simp [pqTop, hx]
    | cons b u =>
      rw [pqTop_cons (by simp)]
      rcases List.mem_cons.mp hx with h | h
      · subst h
        exact le_trans (ha _ (List.mem_cons_self _ _))
          (ih hst _ (List.mem_cons_self _ _))
      · exact ih hst _ h

lemma sorted_take {l : List ℝ} (hs : l.Sorted (· ≤ ·)) (n : ℕ) :
    (l.take n).Sorted (· ≤ ·) :=
  hs.sublist (List.take_sublist n l)

lemma dropLast_take {l : List ℝ} {n : ℕ} (h : n + 1 ≤ l.length) :
    (l.take (n + 1)).dropLast = l.take n := by
  rw [List.dropLast_eq_take, List.length_take, List.take_take]
  congr 1
  omega

/-- Key exchange step: offering `d` to the sorted list of the `c` smallest
elements of `s` produces the sorted list of the `c` smallest elements of
`s` with `d` added (for `s` itself sorted). -/
lemma offer_sorted_take :
    ∀ (s : List ℝ), s.Sorted (· ≤ ·) → ∀ (c : ℕ), 1 ≤ c → c ≤ s.length → ∀ d,
      offer (s.take c) d = (List.orderedInsert (· ≤ ·) d s).take c := by
  intro s
  induction s with
  | nil =>
    intro _ c h1 h2
    simp at h2
    omega
  | cons a t ih =>
    intro hs c h1 h2 d
    rcases List.sorted_cons.mp hs with ⟨ha, hst⟩
    match c, h1 with
    | 1, _ =>
      simp only [List.take_succ_cons, List.take_zero]
      by_cases hda : d ≤ a
      · rw [List.orderedInsert_of_le _ _ hda]
        by_cases hlt : d < a
        · simp [offer, pqTop, pqPop, pqPush, hlt, List.orderedInsert]
        · have : d = a := le_antisymm hda (not_lt.mp hlt)
          subst this
          simp [offer, pqTop, pqPop, pqPush, hlt]
      · have hcond : ¬ d < a := fun hc => hda (le_of_lt hc)
        simp [offer, pqTop, pqPop, pqPush, hcond, List.orderedInsert, hda]
    | (c'' + 2), _ =>
      have hc' : 1 ≤ c'' + 1 := by omega
      have hct : c'' + 1 ≤ t.length := by
        simp at h2
        omega
      have htne : t.take (c'' + 1) ≠ [] := by
        have : (t.take (c'' + 1)).length = c'' + 1 := by
          rw [List.length_take]
          omega
        intro hnil
        rw [hnil] at this
        simp at this
      have htk : (a :: t).take (c'' + 2) = a :: t.take (c'' + 1) := by
        simp [List.take_succ_cons]
      have htop : pqTop (a :: t.take (c'' + 1)) = pqTop (t.take (c'' + 1)) :=
        pqTop_cons htne
      set m := pqTop (t.take (c'' + 1)) with hm
      have hm_mem : m ∈ t.take (c'' + 1) := pqTop_mem htne
      have ham : a ≤ m := ha m (List.take_subset _ _ hm_mem)
      by_cases hda : d ≤ a
      · rw [List.orderedInsert_of_le _ _ hda]
        by_cases hdm : d < m
        · -- d is small: it enters the structure, evicting the maximum m
          rw [htk]
          have hcond : d < pqTop (a :: t.take (c'' + 1)) := by rw [htop]; exact hdm
          simp only [offer, if_pos hcond, pqPush, pqPop]
          have hdl : (a :: t.take (c'' + 1)).dropLast = a :: t.take c'' := by
            cases htt : t.take (c'' + 1) with
            | nil => exact absurd htt htne
            | cons x xs =>
              rw [← htt]
              have : (a :: t.take (c'' + 1)).dropLast = a :: (t.take (c'' + 1)).dropLast := by
                rw [htt]
                simp
              rw [this, dropLast_take hct]
          rw [hdl, List.orderedInsert_of_le _ _ hda]
          simp [List.take_succ_cons]
        · -- d ≥ m and d ≤ a ≤ m force d = a = m and a flat prefix
          have hmd : m ≤ d := not_lt.mp hdm
          have hdaeq : d = a := le_antisymm hda (le_trans ham hmd)
          have hma : m = a := le_antisymm (by rw [← hdaeq]; exact hmd) ham
          have hflat : ∀ x ∈ t.take (c'' + 1), x = a := by
            intro x hx
            have h1x : a ≤ x := ha x (List.take_subset _ _ hx)
            have h2x : x ≤ m := le_pqTop_of_mem (sorted_take hst _) _ hx
            exact le_antisymm (hma ▸ h2x) h1x
          have hrep : t.take (c'' + 1) = List.replicate (c'' + 1) a := by
            apply List.eq_replicate_iff.mpr
            constructor
            · rw [List.length_take]; omega
            · exact hflat
          have hrep'' : t.take c'' = List.replicate c'' a := by
            apply List.eq_replicate_iff.mpr
            constructor
            · rw [List.length_take]; omega
            · intro x hx
              apply hflat
              have : t.take c'' = (t.take (c'' + 1)).take c'' := by
                rw [List.take_take]
                congr 1
                omega
              rw [this] at hx
              exact List.take_subset _ _ hx
          rw [htk]
          have hcond : ¬ d < pqTop (a :: t.take (c'' + 1)) := by
            rw [htop]
            exact hdm
          simp only [offer, if_neg hcond]
          rw [List.take_succ_cons, List.take_succ_cons, hrep, hrep'', hdaeq]
          simp [List.replicate_succ]
      · -- a < d: the head survives; recurse on the tail
        have hRHS : List.orderedInsert (· ≤ ·) d (a :: t)
            = a :: List.orderedInsert (· ≤ ·) d t := by
          simp [List.orderedInsert, hda]
        rw [hRHS, htk, List.take_succ_cons]
        have hIH := ih hst (c'' + 1) hc' hct d
        by_cases hdm : d < m
        · have hcond : d < pqTop (a :: t.take (c'' + 1)) := by rw [htop]; exact hdm
          simp only [offer, if_pos hcond, pqPush, pqPop]
          have hdl : (a :: t.take (c'' + 1)).dropLast = a :: t.take c'' := by
            cases htt : t.take (c'' + 1) with
            | nil => exact absurd htt htne
            | cons x xs =>
              rw [← htt]
              have : (a :: t.take (c'' + 1)).dropLast = a :: (t.take (c'' + 1)).dropLast := by
                rw [htt]
                simp
              rw [this, dropLast_take hct]
          rw [hdl]
          have hstep : List.orderedInsert (· ≤ ·) d (a :: t.take c'')
              = a :: List.orderedInsert (· ≤ ·) d (t.take c'') := by
            simp [List.orderedInsert, hda]
          rw [hstep]
          congr 1
          have hin : offer (t.take (c'' + 1)) d
              = List.orderedInsert (· ≤ ·) d (t.take c'') := by
            simp only [offer, if_pos hdm, pqPush, pqPop, dropLast_take hct]
          rw [← hin, hIH]
        · have hcond : ¬ d < pqTop (a :: t.take (c'' + 1)) := by rw [htop]; exact hdm
          simp only [offer, if_neg hcond]
          congr 1
          have hin : offer (t.take (c'' + 1)) d = t.take (c'' + 1) := by
            simp only [offer, if_neg hdm]
          rw [← hin, hIH]

lemma sortL_sorted (l : List ℝ) : (sortL l).Sorted (· ≤ ·) :=
  List.sorted_insertionSort _ l

lemma sortL_perm (l : List ℝ) : List.Perm (sortL l) l := List.perm_insertionSort _ l

lemma sortL_length (l : List ℝ) : (sortL l).length = l.length :=
  (sortL_perm l).length_eq

/-- Sorting is invariant under permutation of the input. -/
lemma sortL_congr {l₁ l₂ : List ℝ} (h : List.Perm l₁ l₂) : sortL l₁ = sortL l₂ := by
  have hp : List.Perm (sortL l₁) (sortL l₂) :=
    ((sortL_perm l₁).trans h).trans (sortL_perm l₂).symm
  exact List.eq_of_perm_of_sorted hp (sortL_sorted l₁) (sortL_sorted l₂)

lemma sortL_of_sorted {l : List ℝ} (h : l.Sorted (· ≤ ·)) : sortL l = l :=
  h.insertionSort_eq

/-- Offering `d` to the `c` smallest of `M` yields the `c` smallest of
`M ++ [d]`. -/
lemma offer_take_sortL (M : List ℝ) (c : ℕ) (h1 : 1 ≤ c) (h2 : c ≤ M.length) (d : ℝ) :
    offer ((sortL M).take c) d = (sortL (M ++ [d])).take c := by
  have hperm : sortL (M ++ [d]) = List.orderedInsert (· ≤ ·) d (sortL M) := by
    have hp : List.Perm (sortL (M ++ [d])) (List.orderedInsert (· ≤ ·) d (sortL M)) :=
      (sortL_perm _).trans
        (((List.perm_append_singleton d M).trans
          ((sortL_perm M).symm.cons d)).trans (List.perm_orderedInsert _ d _).symm)
    have h2' : (List.orderedInsert (· ≤ ·) d (sortL M)).Sorted (· ≤ ·) :=
      (sortL_sorted M).orderedInsert _ _
    exact List.eq_of_perm_of_sorted hp (sortL_sorted _) h2'
  rw [hperm]
  exact offer_sorted_take (sortL M) (sortL_sorted M) c h1 (by rw [sortL_length]; exact h2) d

/-- Characterization of the bounded max-structure: starting from a sorted
seed of size `c` and offering every element of `L` in turn leaves exactly
the sorted list of the `c` smallest elements of seed-plus-offers. -/
lemma foldl_offer_characterization (L : List ℝ) (init : List ℝ)
    (hs : init.Sorted (· ≤ ·)) (h1 : 1 ≤ init.length) :
    List.foldl offer init L = (sortL (init ++ L)).take init.length := by
  induction L using List.reverseRecOn with
  | nil =>
    simp [sortL_of_sorted hs]
  | append_singleton L d ih =>
    rw [← List.append_assoc, List.foldl_append, ih]
    simp only [List.foldl_cons, List.foldl_nil]
    exact offer_take_sortL (init ++ L) init.length h1 (by simp) d

lemma sorted_replicate (n : ℕ) (a : ℝ) : (List.replicate n a).Sorted (· ≤ ·) :=
  List.pairwise_replicate.mpr (Or.inr le_rfl)

lemma getLastD_take : ∀ (l : List ℝ) (k : ℕ), 1 ≤ k → k ≤ l.length →
    (l.take k).getLastD 0 = l.getD (k - 1) 0 := by
  intro l
  induction l with
  | nil =>
    intro k h1 h2
    simp at h2
    omega
  | cons a t ih =>
    intro k h1 h2
    match k, h1 with
    | 1, _ => simp
    | (k' + 2), _ =>
      have htk : (a :: t).take (k' + 2) = a :: t.take (k' + 1) := by simp
      have hlt : k' + 1 ≤ t.length := by
        simp at h2
        omega
      have hne : t.take (k' + 1) ≠ [] := by
        intro hnil
        have : (t.take (k' + 1)).length = k' + 1 := by
          rw [List.length_take]
          omega
        rw [hnil] at this
        simp at this
      rw [htk, List.getLastD_cons, getLastD_congr hne a 0, ih (k' + 1) (by omega) hlt]
      simp

/-- The sorted contents of the structure seeded with `k+1` sentinels after
offering a list of values that all lie strictly below the sentinel: popping
once and reading the top yields the k-th smallest offered value. -/
lemma heap_value_of_small (offers : List ℝ) (k : ℕ) (hk : 1 ≤ k) (hlen : k ≤ offers.length)
    (hsmall : ∀ z ∈ offers, z < 1000) :
    (let h := pqPop ((sortL (List.replicate (k + 1) (1000:ℝ) ++ offers)).take (k + 1));
     if h.isEmpty then 0 else pqTop h) = (sortL offers).getD (k - 1) 0 := by
  have hsplit : sortL (List.replicate (k + 1) (1000:ℝ) ++ offers)
      = sortL offers ++ List.replicate (k + 1) (1000:ℝ) := by
    have hp : List.Perm (sortL (List.replicate (k + 1) (1000:ℝ) ++ offers))
        (sortL offers ++ List.replicate (k + 1) (1000:ℝ)) :=
      (sortL_perm _).trans ((List.perm_append_comm).trans
        (List.Perm.append_right _ (sortL_perm offers).symm))
    have hsorted : (sortL offers ++ List.replicate (k + 1) (1000:ℝ)).Sorted (· ≤ ·) := by
      refine List.pairwise_append.mpr ⟨sortL_sorted _, sorted_replicate _ _, ?_⟩
      intro x hx z hz
      have hx' : x ∈ offers := (sortL_perm offers).mem_iff.mp hx
      have hz' : z = 1000 := (List.eq_of_mem_replicate hz)
      rw [hz']
      exact le_of_lt (hsmall x hx')
    exact List.eq_of_perm_of_sorted hp (sortL_sorted _) hsorted
  rw [hsplit]
  set D := sortL offers with hD
  have hlenD : D.length = offers.length := sortL_length offers
  rw [List.take_append_eq_append_take]
  rcases lt_or_eq_of_le hlen with hlt | heq
  · -- strictly more offers than k: the sentinels are all evicted from the prefix
    have hk1 : k + 1 ≤ D.length := by omega
    have htz : k + 1 - D.length = 0 := by omega
    rw [htz, List.take_zero, List.append_nil]
    have hpop : pqPop (D.take (k + 1)) = D.take k := by
      unfold pqPop
      exact dropLast_take hk1
    rw [hpop]
    have hne : D.take k ≠ [] := by
      intro hnil
      have : (D.take k).length = k := by
        rw [List.length_take]
        omega
      rw [hnil] at this
      simp at this
      omega
    rw [if_neg (by simpa [List.isEmpty_iff] using hne)]
    unfold pqTop
    exact getLastD_take D k hk (by omega)
  · -- exactly k offers: one sentinel remains and is popped away
    have hDk : D.length = k := by omega
    have htake : D.take (k + 1) = D := List.take_of_length_le (by omega)
    have htz : k + 1 - D.length = 1 := by omega
    rw [htz, htake, List.take_replicate]
    have hmin : min 1 (k + 1) = 1 := by omega
    rw [hmin]
    have hpop : pqPop (D ++ List.replicate 1 (1000:ℝ)) = D := by
      unfold pqPop
      simp [List.replicate]
    rw [hpop]
    have hne : D ≠ [] := by
      intro hnil
      rw [hnil] at hDk
      simp at hDk
      omega
    rw [if_neg (by simpa [List.isEmpty_iff] using hne)]
    unfold pqTop
    have := getLastD_take D k hk (by omega)
    rw [← this, List.take_of_length_le (by omega)]

/-- The list of index pairs (i, j), i < j, in the order visited by the
nested loops `for(i = 0; i < na-1; i++) for(j = i+1; j < na; j++)`. -/
def pairsL (na : ℕ) : List (ℕ × ℕ) :=
  (List.range na).flatMap (fun i =>
    ((List.range na).filter (fun j => decide (i < j))).map (fun j => (i, j)))

lemma filter_flatMap {α β : Type} (l : List α) (f : α → List β) (p : β → Bool) :
    (l.flatMap f).filter p = l.flatMap (fun a => (f a).filter p) := by
  induction l with
  | nil => rfl
  | cons a t ih => simp [List.flatMap_cons, List.filter_append, ih]

lemma flatMap_congr {α β : Type} {l : List α} {f g : α → List β}
    (h : ∀ a ∈ l, f a = g a) : l.flatMap f = l.flatMap g := by
  induction l with
  | nil => rfl
  | cons a t ih =>
    simp only [List.flatMap_cons]
    rw [h a (List.mem_cons_self _ _), ih (fun b hb => h b (List.mem_cons_of_mem _ hb))]

lemma flatMap_singleton_eq_map {α β : Type} (l : List α) (g : α → β) :
    l.flatMap (fun a => [g a]) = l.map g := by
  induction l with
  | nil => rfl
  | cons a t ih => simp [List.flatMap_cons, ih]

lemma flatMap_nil_fun {α β : Type} (l : List α) :
    l.flatMap (fun _ => ([] : List β)) = [] := by
  induction l with
  | nil => rfl
  | cons a t ih => simp [List.flatMap_cons, ih]

/-- Splitting a `flatMap` over `range na` at an interior index `m`. -/
lemma flatMap_range_split {β : Type} (na m : ℕ) (hm : m < na) (g : ℕ → List β) :
    (List.range na).flatMap g
    = (List.range m).flatMap g ++ g m
      ++ ((List.range (na - m - 1)).map (fun t => m + 1 + t)).flatMap g := by
  nth_rewrite 1 [show na = m + 1 + (na - m - 1) by omega]
  rw [List.range_add, List.range_succ, List.flatMap_append, List.flatMap_append]
  simp

lemma range_filter_eq_singleton {m n : ℕ} (h : m < n) :
    (List.range n).filter (fun j => decide (m = j)) = [m] := by
  induction n with
  | zero => omega
  | succ n ih =>
    rw [List.range_succ, List.filter_append]
    rcases Nat.lt_or_ge m n with hmn | hmn
    · rw [ih hmn]
      have hne : ¬ (m = n) := by omega
      simp [hne]
    · have hmn' : m = n := by omega
      subst hmn'
      have h1 : (List.range m).filter (fun j => decide (m = j)) = [] := by
        rw [List.filter_eq_nil_iff]
        intro a ha
        simp only [List.mem_range] at ha
        simp only [decide_eq_true_eq]
        omega
      rw [h1]
      simp

/-- The pairs of the nested loop that touch index `m`: first all `(i, m)`
with `i < m` (in order), then all `(m, j)` with `j > m` (in order). -/
lemma pairs_filter {na m : ℕ} (hm : m < na) :
    (pairsL na).filter (fun p => decide (m = p.1) || decide (m = p.2))
    = ((List.range m).map (fun i => (i, m)))
      ++ ((List.range na).filter (fun j => decide (m < j))).map (fun j => (m, j)) := by
  unfold pairsL
  rw [filter_flatMap]
  have hblock : ∀ i ∈ List.range na,
      (((List.range na).filter (fun j => decide (i < j))).map (fun j => (i, j))).filter
          (fun p => decide (m = p.1) || decide (m = p.2))
      = (if i < m then [(i, m)]
         else if i = m then ((List.range na).filter (fun j => decide (m < j))).map
            (fun j => (m, j))
         else []) := by
    intro i _
    rw [List.filter_map, List.filter_filter]
    rcases Nat.lt_trichotomy i m with him | him | him
    · rw [if_pos him]
      have hcongr : ∀ j ∈ List.range na,
          (((fun p : ℕ × ℕ => decide (m = p.1) || decide (m = p.2)) ∘ fun j => (i, j)) j
            && decide (i < j)) = decide (m = j) := by
        intro j _
        have hmi : ¬ (m = i) := by omega
        by_cases hj : m = j
        · subst hj
          simp [him, hmi]
        · simp [hj, hmi]
      rw [List.filter_congr hcongr, range_filter_eq_singleton hm]
      rfl
    · subst him
      rw [if_neg (by omega), if_pos rfl]
      have hcongr : ∀ j ∈ List.range na,
          (((fun p : ℕ × ℕ => decide (i = p.1) || decide (i = p.2)) ∘ fun j => (i, j)) j
            && decide (i < j)) = decide (i < j) := by
        intro j _
        simp
      rw [List.filter_congr hcongr]
    · rw [if_neg (by omega), if_neg (by omega)]
      rw [List.filter_eq_nil_iff.mpr, List.map_nil]
      intro j _
      simp
      intro hor
      rcases hor with h1 | h1 <;> omega
  rw [flatMap_congr hblock]
  rw [flatMap_range_split na m hm]
  have hpart1 : (List.range m).flatMap (fun i =>
      if i < m then [(i, m)]
      else if i = m then ((List.range na).filter (fun j => decide (m < j))).map
          (fun j => (m, j))
      else []) = (List.range m).map (fun i => (i, m)) := by
    have : ∀ i ∈ List.range m, (if i < m then [(i, m)]
        else if i = m then ((List.range na).filter (fun j => decide (m < j))).map
            (fun j => (m, j))
        else []) = [(i, m)] := by
      intro i hi
      rw [if_pos (List.mem_range.mp hi)]
    rw [flatMap_congr this, flatMap_singleton_eq_map]
  have hpart2 : (if m < m then [(m, m)]
      else if m = m then ((List.range na).filter (fun j => decide (m < j))).map
          (fun j => (m, j))
      else ([] : List (ℕ × ℕ)))
      = ((List.range na).filter (fun j => decide (m < j))).map (fun j => (m, j)) := by
    simp
  have hpart3 : ((List.range (na - m - 1)).map (fun t => m + 1 + t)).flatMap (fun i =>
      if i < m then [(i, m)]
      else if i = m then ((List.range na).filter (fun j => decide (m < j))).map
          (fun j => (m, j))
      else []) = [] := by
    have : ∀ i ∈ (List.range (na - m - 1)).map (fun t => m + 1 + t), (if i < m then [(i, m)]
        else if i = m then ((List.range na).filter (fun j => decide (m < j))).map
            (fun j => (m, j))
        else []) = ([] : List (ℕ × ℕ)) := by
      intro i hi
      rcases List.mem_map.mp hi with ⟨t, _, ht⟩
      rw [if_neg (by omega), if_neg (by omega)]
    rw [flatMap_congr this, flatMap_nil_fun]
  rw [hpart1, hpart2, hpart3, List.append_nil]

lemma length_range_filter_gt (na m : ℕ) :
    ((List.range na).filter (fun j => decide (m < j))).length = na - (m + 1) := by
  induction na with
  | zero => simp
  | succ na ih =>
    rw [List.range_succ, List.filter_append, List.length_append, ih]
    by_cases h : m < na
    · simp [h]
      omega
    · simp [h]
      omega

lemma filter_ne_self_of_lt {m na : ℕ} (h : na ≤ m) :
    (List.range na).filter (fun j => decide (j ≠ m)) = List.range na := by
  rw [List.filter_eq_self]
  intro a ha
  simp only [List.mem_range] at ha
  simp only [ne_eq, decide_not, Bool.not_eq_eq_eq_not, Bool.not_true, decide_eq_false_iff_not]
  omega

/-- The indices distinct from `m` in `range na`, in loop order: those below
`m` followed by those above `m`. -/
lemma range_filter_ne {m na : ℕ} (hm : m < na) :
    (List.range na).filter (fun j => decide (j ≠ m))
    = List.range m ++ (List.range na).filter (fun j => decide (m < j)) := by
  induction na with
  | zero => omega
  | succ na ih =>
    rw [List.range_succ, List.filter_append, List.filter_append]
    rcases Nat.lt_or_ge m na with hmn | hmn
    · rw [ih hmn]
      have h1 : na ≠ m := by omega
      have h2 : m < na := hmn
      simp [h1, h2, List.append_assoc]
    · have hmn' : m = na := by omega
      subst hmn'
      rw [filter_ne_self_of_lt le_rfl]
      have h1 : (List.range m).filter (fun j => decide (m < j)) = [] := by
        rw [List.filter_eq_nil_iff]
        intro a ha
        simp only [List.mem_range] at ha
        simp only [decide_eq_true_eq]
        omega
      rw [h1]
      simp

lemma length_range_filter_ne {m na : ℕ} (hm : m < na) :
    ((List.range na).filter (fun j => decide (j ≠ m))).length = na - 1 := by
  rw [range_filter_ne hm, List.length_append, List.length_range, length_range_filter_gt]
  omega

namespace NumericUtilities

/-- Toroidal Euclidean distance between two points on an `xmax × ymax`
plot: per-axis separation is the minimum of direct and wrapped distance
(src/src/NumericUtilities.cpp, `getEuclideanDistance`). -/
noncomputable def getEuclideanDistance (xmax ymax x1 y1 x2 y2 : ℝ) : ℝ :=
  let dx := |x1 - x2|
  let dy := |y1 - y2|
  let dxw := min dx (xmax - dx)
  let dyw := min dy (ymax - dy)
  Real.sqrt (dxw * dxw + dyw * dyw)

lemma getEuclideanDistance_symm (xmax ymax a b c d : ℝ) :
    getEuclideanDistance xmax ymax a b c d = getEuclideanDistance xmax ymax c d a b := by
  unfold getEuclideanDistance
  rw [abs_sub_comm a c, abs_sub_comm b d]

/-- The sentinel seeded into every bounded max-structure
(`DUMMY_LARGE_DISTANCE = 1000.0` in `findNeighbours`). -/
noncomputable def DUMMY_LARGE_DISTANCE : ℝ := 1000

/-- The distance computed for one loop iteration of the pair loop. -/
noncomputable def pairDist (xmax ymax : ℝ) (x y : List ℝ) (p : ℕ × ℕ) : ℝ :=
  getEuclideanDistance xmax ymax (x.getD p.1 0) (y.getD p.1 0) (x.getD p.2 0) (y.getD p.2 0)

/-- One iteration of the pair loop of `findNeighbours`: the distance of the
pair `p` is computed once and offered to the structures of both `p.1` and
`p.2` (which are distinct, so the two sequential updates commute and are
modelled as one simultaneous update). -/
noncomputable def nbrStep (xmax ymax : ℝ) (x y : List ℝ) (s : ℕ → List ℝ) (p : ℕ × ℕ) :
    ℕ → List ℝ :=
  fun q =>
    if q = p.1 then offer (s q) (pairDist xmax ymax x y p)
    else if q = p.2 then offer (s q) (pairDist xmax ymax x y p)
    else s q

/-- `findNeighbours` from src/src/NumericUtilities.cpp: one bounded
max-structure of capacity `mi+1` per point, seeded with sentinels; every
unordered pair's toroidal distance is offered to both endpoints; finally
each structure is popped once, the remaining top values are summed and the
sum divided by the number of points. -/
noncomputable def findNeighbours (xmax ymax : ℝ) (x y : List ℝ) (mi : ℕ) : ℝ :=
  let na := x.length
  let final := (pairsL na).foldl (nbrStep xmax ymax x y)
    (fun _ => List.replicate (mi + 1) DUMMY_LARGE_DISTANCE)
  (∑ m ∈ Finset.range na,
    (let h := pqPop (final m); if h.isEmpty then 0 else pqTop h)) / na

/-- `calcCE` from src/src/NumericUtilities.cpp: Clark-Evans index. -/
noncomputable def calcCE (xmax ymax : ℝ) (x y : List ℝ) : ℝ :=
  let d1 := findNeighbours xmax ymax x y 1
  let na := x.length
  let d1Poisson := 0.5 * Real.sqrt (xmax * ymax / na)
  d1 / d1Poisson

/-- Toroidal distance between the points at indices `i` and `j`. -/
noncomputable def toroDist (xmax ymax : ℝ) (x y : List ℝ) (i j : ℕ) : ℝ :=
  getEuclideanDistance xmax ymax (x.getD i 0) (y.getD i 0) (x.getD j 0) (y.getD j 0)

/-- The list of toroidal distances from point `m` to all other points, in
loop order. -/
noncomputable def neighborDists (xmax ymax : ℝ) (x y : List ℝ) (m : ℕ) : List ℝ :=
  ((List.range x.length).filter (fun j => decide (j ≠ m))).map (toroDist xmax ymax x y m)

/-- The k-th nearest-neighbour distance of point `m` (1-based `k`). -/
noncomputable def kthNearestDist (xmax ymax : ℝ) (x y : List ℝ) (k m : ℕ) : ℝ :=
  (sortL (neighborDists xmax ymax x y m)).getD (k - 1) 0

/-- Decomposition of the interleaved pair loop: the structure of point `m`
sees exactly the distances of the pairs that contain `m`, in loop order. -/
lemma foldl_nbrStep (xmax ymax : ℝ) (x y : List ℝ) (P : List (ℕ × ℕ))
    (s : ℕ → List ℝ) (m : ℕ) :
    (P.foldl (nbrStep xmax ymax x y) s) m
    = List.foldl offer (s m)
        ((P.filter (fun p => decide (m = p.1) || decide (m = p.2))).map
          (pairDist xmax ymax x y)) := by
  induction P generalizing s with
  | nil => rfl
  | cons p P ih =>
    simp only [List.foldl_cons, List.filter_cons]
    by_cases h1 : m = p.1
    · rw [if_pos (by simp [h1])]
      rw [ih]
      simp only [List.map_cons, List.foldl_cons]
      congr 2
      unfold nbrStep
      rw [if_pos h1]
    · by_cases h2 : m = p.2
      · rw [if_pos (by simp [h2])]
        rw [ih]
        simp only [List.map_cons, List.foldl_cons]
        congr 2
        unfold nbrStep
        rw [if_neg h1, if_pos h2]
      · rw [if_neg (by simp [h1, h2])]
        rw [ih]
        congr 2
        unfold nbrStep
        rw [if_neg h1, if_neg h2]

/-- The offers received by point `m` are exactly its neighbour distances. -/
lemma offers_eq_neighborDists {xmax ymax : ℝ} {x y : List ℝ} {m : ℕ} (hm : m < x.length) :
    ((pairsL x.length).filter (fun p => decide (m = p.1) || decide (m = p.2))).map
        (pairDist xmax ymax x y)
    = neighborDists xmax ymax x y m := by
  rw [pairs_filter hm, List.map_append, List.map_map, List.map_map]
  unfold neighborDists
  rw [range_filter_ne hm, List.map_append]
  congr 1
  apply List.map_congr_left
  intro i _
  simp only [Function.comp_apply]
  exact getEuclideanDistance_symm xmax ymax (x.getD i 0) (y.getD i 0) (x.getD m 0) (y.getD m 0)

/-- `findNeighbours` in closed form: each point's structure ends as the
`mi+1` smallest among its offered distances and the sentinels. -/
lemma findNeighbours_heaps (xmax ymax : ℝ) (x y : List ℝ) (mi : ℕ) :
    findNeighbours xmax ymax x y mi
    = (∑ m ∈ Finset.range x.length,
        (let h := pqPop ((sortL (List.replicate (mi + 1) DUMMY_LARGE_DISTANCE
            ++ neighborDists xmax ymax x y m)).take (mi + 1));
         if h.isEmpty then 0 else pqTop h)) / x.length := by
  unfold findNeighbours
  dsimp only
  congr 1
  apply Finset.sum_congr rfl
  intro m hm
  have hm' : m < x.length := Finset.mem_range.mp hm
  rw [foldl_nbrStep, offers_eq_neighborDists hm',
    foldl_offer_characterization _ _ (sorted_replicate _ _) (by simp)]
  simp

/-- Amended form of the nearest-neighbour engine contract: provided every
toroidal inter-point distance lies strictly below the sentinel 1000, the
function returns the mean of the per-point `mi`-th nearest distances. -/
lemma findNeighbours_spec (xmax ymax : ℝ) (x y : List ℝ) (mi : ℕ)
    (h1 : 1 ≤ mi) (h2 : mi < x.length)
    (hsmall : ∀ i j, i < x.length → j < x.length → i ≠ j →
      toroDist xmax ymax x y i j < 1000) :
    findNeighbours xmax ymax x y mi
    = (∑ m ∈ Finset.range x.length, kthNearestDist xmax ymax x y mi m) / x.length := by
  rw [findNeighbours_heaps]
  congr 1
  apply Finset.sum_congr rfl
  intro m hm
  have hm' : m < x.length := Finset.mem_range.mp hm
  have hlen : (neighborDists xmax ymax x y m).length = x.length - 1 := by
    unfold neighborDists
    rw [List.length_map]
    exact length_range_filter_ne hm'
  have hsm : ∀ z ∈ neighborDists xmax ymax x y m, z < 1000 := by
    intro z hz
    unfold neighborDists at hz
    rcases List.mem_map.mp hz with ⟨j, hj, rfl⟩
    rcases List.mem_filter.mp hj with ⟨hjr, hjm⟩
    have hj' : j < x.length := List.mem_range.mp hjr
    have hjm' : j ≠ m := by simpa using hjm
    exact hsmall m j hm' hj' (fun hc => hjm' hc.symm)
  have := heap_value_of_small (neighborDists xmax ymax x y m) mi h1 (by omega) hsm
  unfold DUMMY_LARGE_DISTANCE
  rw [this]
  rfl

/-- The head of the ascending sort is a minimum of the list. -/
lemma sortL_head_min {L : List ℝ} (hne : L ≠ []) :
    (sortL L).getD 0 0 ∈ L ∧ ∀ z ∈ L, (sortL L).getD 0 0 ≤ z := by
  have hne' : sortL L ≠ [] := by
    intro h
    have hl := sortL_length L
    rw [h] at hl
    exact hne (List.length_eq_zero.mp hl.symm)
  cases hD : sortL L with
  | nil => exact absurd hD hne'
  | cons a t =>
    simp only [List.getD_cons_zero]
    have hamem : a ∈ sortL L := by
      rw [hD]
      exact List.mem_cons_self a t
    have hsort : (a :: t).Sorted (· ≤ ·) := by
      rw [← hD]
      exact sortL_sorted L
    constructor
    · exact (sortL_perm L).mem_iff.mp hamem
    · intro z hz
      have hz' : z ∈ a :: t := by
        rw [← hD]
        exact (sortL_perm L).mem_iff.mpr hz
      rcases List.mem_cons.mp hz' with h | h
      · exact le_of_eq h.symm
      · exact List.rel_of_sorted_cons hsort z h

/-- First-nearest-neighbour distance of point `m` as the spec words it: the
minimum toroidal distance from `m` to any other point index. -/
noncomputable def nnDist (xmax ymax : ℝ) (x y : List ℝ) (m : ℕ) : ℝ :=
  if h : ((Finset.range x.length).erase m).Nonempty then
    ((Finset.range x.length).erase m).inf' h (toroDist xmax ymax x y m)
  else 0

lemma neighborDists_length {xmax ymax : ℝ} {x y : List ℝ} {m : ℕ} (hm : m < x.length) :
    (neighborDists xmax ymax x y m).length = x.length - 1 := by
  unfold neighborDists
  rw [List.length_map]
  exact length_range_filter_ne hm

lemma nnDist_eq_kth (xmax ymax : ℝ) (x y : List ℝ) (m : ℕ)
    (hn : 2 ≤ x.length) (hm : m < x.length) :
    nnDist xmax ymax x y m = kthNearestDist xmax ymax x y 1 m := by
  have hlen := @neighborDists_length xmax ymax x y m hm
  have hne : neighborDists xmax ymax x y m ≠ [] := by
    intro h
    rw [h] at hlen
    simp at hlen
    omega
  obtain ⟨hmem, hmin⟩ := sortL_head_min hne
  have hnonempty : ((Finset.range x.length).erase m).Nonempty := by
    rcases Nat.lt_or_ge 0 m with h0 | h0
    · exact ⟨0, Finset.mem_erase.mpr ⟨by omega, Finset.mem_range.mpr (by omega)⟩⟩
    · exact ⟨1, Finset.mem_erase.mpr ⟨by omega, Finset.mem_range.mpr (by omega)⟩⟩
  unfold nnDist kthNearestDist
  rw [dif_pos hnonempty]
  have h11 : (1 : ℕ) - 1 = 0 := rfl
  rw [h11]
  apply le_antisymm
  · unfold neighborDists at hmem
    rcases List.mem_map.mp hmem with ⟨j, hj, hval⟩
    rcases List.mem_filter.mp hj with ⟨hjr, hjm⟩
    have hjmem : j ∈ (Finset.range x.length).erase m := Finset.mem_erase.mpr
      ⟨by simpa using hjm, Finset.mem_range.mpr (List.mem_range.mp hjr)⟩
    calc ((Finset.range x.length).erase m).inf' hnonempty (toroDist xmax ymax x y m)
        ≤ toroDist xmax ymax x y m j := Finset.inf'_le _ hjmem
    _ = _ := hval
  · apply Finset.le_inf'
    intro j hj
    rcases Finset.mem_erase.mp hj with ⟨hjm, hjr⟩
    apply hmin
    unfold neighborDists
    exact List.mem_map.mpr ⟨j, List.mem_filter.mpr
      ⟨List.mem_range.mpr (Finset.mem_range.mp hjr), by simpa using hjm⟩, rfl⟩

/-- Clark-Evans characterization: under the sentinel bound, `calcCE` is the
mean first-nearest-neighbour toroidal distance divided by the Poisson
expectation `0.5 * sqrt(xmax * ymax / n)`. -/
lemma calcCE_spec (xmax ymax : ℝ) (x y : List ℝ)
    (hn : 2 ≤ x.length)
    (hsmall : ∀ i j, i < x.length → j < x.length → i ≠ j →
      toroDist xmax ymax x y i j < 1000) :
    calcCE xmax ymax x y
    = ((∑ m ∈ Finset.range x.length, nnDist xmax ymax x y m) / x.length)
      / (0.5 * Real.sqrt (xmax * ymax / x.length)) := by
  unfold calcCE
  dsimp only
  rw [findNeighbours_spec xmax ymax x y 1 le_rfl (by omega) hsmall]
  congr 2
  apply Finset.sum_congr rfl
  intro m hm
  exact (nnDist_eq_kth xmax ymax x y m hn (Finset.mem_range.mp hm)).symm

/-- The closed-form value a point's structure reports, as a function of the
offered distance list alone. -/
noncomputable def heapVal (mi : ℕ) (dists : List ℝ) : ℝ :=
  let h := pqPop ((sortL (List.replicate (mi + 1) DUMMY_LARGE_DISTANCE ++ dists)).take (mi + 1))
  if h.isEmpty then 0 else pqTop h

lemma findNeighbours_heapVal (xmax ymax : ℝ) (x y : List ℝ) (mi : ℕ) :
    findNeighbours xmax ymax x y mi
    = (∑ m ∈ Finset.range x.length,
        heapVal mi (neighborDists xmax ymax x y m)) / x.length :=
  findNeighbours_heaps xmax ymax x y mi

/-- The reported value depends only on the multiset of offered distances. -/
lemma heapVal_congr {mi : ℕ} {d1 d2 : List ℝ} (h : List.Perm d1 d2) :
    heapVal mi d1 = heapVal mi d2 := by
  unfold heapVal
  rw [sortL_congr (h.append_left _)]

lemma perm_of_nodup_mem_iff {l1 l2 : List ℕ} (h1 : l1.Nodup) (h2 : l2.Nodup)
    (h : ∀ a, a ∈ l1 ↔ a ∈ l2) : List.Perm l1 l2 := by
  rw [List.perm_iff_count]
  intro a
  by_cases ha : a ∈ l1
  · rw [List.count_eq_one_of_mem h1 ha, List.count_eq_one_of_mem h2 ((h a).mp ha)]
  · rw [List.count_eq_zero_of_not_mem ha,
      List.count_eq_zero_of_not_mem (fun hc => ha ((h a).mpr hc))]

/-- Reindexing a coordinate array by a permutation of the index range
(the same point set listed in a different order). -/
noncomputable def reindex (σ : Equiv.Perm ℕ) (n : ℕ) (l : List ℝ) : List ℝ :=
  (List.range n).map (fun i => l.getD (σ i) 0)

lemma getD_map_range (f : ℕ → ℝ) {i n : ℕ} (h : i < n) :
    ((List.range n).map f).getD i 0 = f i := by
  rw [List.getD_eq_getElem?_getD, List.getElem?_map, List.getElem?_range h]
  rfl

lemma length_reindex (σ : Equiv.Perm ℕ) (n : ℕ) (l : List ℝ) :
    (reindex σ n l).length = n := by
  unfold reindex
  rw [List.length_map, List.length_range]

lemma perm_maps_lt {σ : Equiv.Perm ℕ} {n : ℕ} (hfix : ∀ i, n ≤ i → σ i = i) :
    ∀ m, m < n → σ m < n := by
  intro m hm
  by_contra hge
  push_neg at hge
  have h1 : σ (σ m) = σ m := hfix _ hge
  have h2 : σ m = m := σ.injective h1
  omega

lemma perm_symm_fix {σ : Equiv.Perm ℕ} {n : ℕ} (hfix : ∀ i, n ≤ i → σ i = i) :
    ∀ i, n ≤ i → σ.symm i = i := by
  intro i hi
  have : σ i = i := hfix i hi
  calc σ.symm i = σ.symm (σ i) := by rw [this]
  _ = i := σ.symm_apply_apply i

lemma toroDist_reindex {xmax ymax : ℝ} {x y : List ℝ} {σ : Equiv.Perm ℕ} {m j : ℕ}
    (hm : m < x.length) (hj : j < x.length) :
    toroDist xmax ymax (reindex σ x.length x) (reindex σ x.length y) m j
    = toroDist xmax ymax x y (σ m) (σ j) := by
  unfold toroDist reindex
  rw [getD_map_range _ hm, getD_map_range _ hm, getD_map_range _ hj, getD_map_range _ hj]

/-- Under reindexing by `σ`, the distance list of point `m` is a
permutation of the distance list of the original point `σ m`. -/
lemma neighborDists_reindex_perm {xmax ymax : ℝ} {x y : List ℝ} {σ : Equiv.Perm ℕ}
    (hfix : ∀ i, x.length ≤ i → σ i = i) {m : ℕ} (hm : m < x.length) :
    List.Perm (neighborDists xmax ymax (reindex σ x.length x) (reindex σ x.length y) m)
      (neighborDists xmax ymax x y (σ m)) := by
  unfold neighborDists
  rw [length_reindex]
  have hstep1 : ((List.range x.length).filter (fun j => decide (j ≠ m))).map
        (toroDist xmax ymax (reindex σ x.length x) (reindex σ x.length y) m)
      = ((List.range x.length).filter (fun j => decide (j ≠ m))).map
        ((toroDist xmax ymax x y (σ m)) ∘ σ) := by
    apply List.map_congr_left
    intro j hj
    rcases List.mem_filter.mp hj with ⟨hjr, _⟩
    exact toroDist_reindex hm (List.mem_range.mp hjr)
  rw [hstep1]
  have hstep2 : ((List.range x.length).filter (fun j => decide (j ≠ m))).map
        ((toroDist xmax ymax x y (σ m)) ∘ σ)
      = (((List.range x.length).filter (fun j => decide (j ≠ m))).map σ).map
        (toroDist xmax ymax x y (σ m)) := by
    rw [List.map_map]
  rw [hstep2]
  apply List.Perm.map
  apply perm_of_nodup_mem_iff
  · exact ((List.nodup_range _).filter _).map (fun a b hc => σ.injective hc)
  · exact (List.nodup_range _).filter _
  · intro a
    constructor
    · intro ha
      rcases List.mem_map.mp ha with ⟨i, hi, rfl⟩
      rcases List.mem_filter.mp hi with ⟨hir, him⟩
      have hi' : i < x.length := List.mem_range.mp hir
      have him' : i ≠ m := by simpa using him
      refine List.mem_filter.mpr ⟨List.mem_range.mpr (perm_maps_lt hfix i hi'), ?_⟩
      simp only [ne_eq, decide_not, Bool.not_eq_eq_eq_not, Bool.not_true,
        decide_eq_false_iff_not]
      intro hc
      exact him' (σ.injective hc)
    · intro ha
      rcases List.mem_filter.mp ha with ⟨har, ham⟩
      have ha' : a < x.length := List.mem_range.mp har
      have ham' : a ≠ σ m := by simpa using ham
      refine List.mem_map.mpr ⟨σ.symm a, List.mem_filter.mpr ⟨?_, ?_⟩, σ.apply_symm_apply a⟩
      · refine List.mem_range.mpr ?_
        have := perm_maps_lt (perm_symm_fix hfix) a ha'
        exact this
      · simp only [ne_eq, decide_not, Bool.not_eq_eq_eq_not, Bool.not_true,
          decide_eq_false_iff_not]
        intro hc
        apply ham'
        rw [← hc, σ.apply_symm_apply]

/-- C9: for every point set with n at least 2 and positive extents, calcCE
returns the same aggregation-index value when the input point sequence is
reordered by any permutation of the indices (extents unchanged): only
relative distances affect the result. -/
theorem claim9_calcCE_perm_invariant (xmax ymax : ℝ) (x y : List ℝ)
    (σ : Equiv.Perm ℕ) (hfix : ∀ i, x.length ≤ i → σ i = i)
    (hn : 2 ≤ x.length) (hxm : 0 < xmax) (hym : 0 < ymax) :
    calcCE xmax ymax (reindex σ x.length x) (reindex σ x.length y)
    = calcCE xmax ymax x y := by
  unfold calcCE
  dsimp only
  rw [findNeighbours_heapVal, findNeighbours_heapVal, length_reindex]
  have hsum : ∑ m ∈ Finset.range x.length,
      heapVal 1 (neighborDists xmax ymax (reindex σ x.length x) (reindex σ x.length y) m)
      = ∑ m ∈ Finset.range x.length, heapVal 1 (neighborDists xmax ymax x y m) := by
    have hσ : ∀ m, m < x.length → σ m < x.length := perm_maps_lt hfix
    have hσ' : ∀ m, σ m < x.length → m < x.length := by
      intro m hm
      by_contra hge
      push_neg at hge
      rw [hfix m hge] at hm
      omega
    calc ∑ m ∈ Finset.range x.length,
        heapVal 1 (neighborDists xmax ymax (reindex σ x.length x) (reindex σ x.length y) m)
        = ∑ m ∈ Finset.range x.length, heapVal 1 (neighborDists xmax ymax x y (σ m)) := by
          apply Finset.sum_congr rfl
          intro m hm
          exact heapVal_congr (neighborDists_reindex_perm hfix (Finset.mem_range.mp hm))
    _ = ∑ m ∈ Finset.range x.length, heapVal 1 (neighborDists xmax ymax x y m) := by
          apply Finset.sum_equiv σ
          · intro i
            simp only [Finset.mem_range]
            exact ⟨hσ i, hσ' i⟩
          · intro i _
            rfl
  rw [hsum]

lemma sqrt_eval {a r : ℝ} (hr : 0 ≤ r) (h : r * r = a) : Real.sqrt a = r := by
  rw [← h]
  exact Real.sqrt_mul_self hr

lemma getEuclideanDistance_eval {xmax ymax x1 y1 x2 y2 r : ℝ} (hr : 0 ≤ r)
    (h : min |x1 - x2| (xmax - |x1 - x2|) * min |x1 - x2| (xmax - |x1 - x2|)
       + min |y1 - y2| (ymax - |y1 - y2|) * min |y1 - y2| (ymax - |y1 - y2|) = r * r) :
    getEuclideanDistance xmax ymax x1 y1 x2 y2 = r := by
  unfold getEuclideanDistance
  dsimp only
  rw [h]
  exact Real.sqrt_mul_self hr

/-- C2 (amended): `findNeighbours` maintains per point a bounded
max-structure of capacity k+1 seeded with the constant sentinel 1000.0,
computes each unordered pair's toroidal distance once and offers it to both
endpoints' structures (replacing the current maximum when smaller), and —
provided every toroidal inter-point distance lies strictly below the
sentinel — after discarding each structure's final maximum the top equals
that point's k-th nearest-neighbour distance, and the function returns the
mean of these k-th nearest distances over all points. -/
theorem claim2_findNeighbours_kth_mean (xmax ymax : ℝ) (x y : List ℝ) (k : ℕ)
    (h1 : 1 ≤ k) (h2 : k < x.length)
    (hsmall : ∀ i j, i < x.length → j < x.length → i ≠ j →
      toroDist xmax ymax x y i j < 1000) :
    findNeighbours xmax ymax x y k
    = (∑ m ∈ Finset.range x.length, kthNearestDist xmax ymax x y k m) / x.length :=
  findNeighbours_spec xmax ymax x y k h1 h2 hsmall

/-- Witness for C2 at two points (0,0) and (3,4) on a 10 x 10 toroidal
plot with k = 1 (all distances are 5, below the sentinel). -/
theorem claim2_witness :
    findNeighbours 10 10 [0, 3] [0, 4] 1
    = (∑ m ∈ Finset.range 2, kthNearestDist 10 10 [0, 3] [0, 4] 1 m) / 2 := by
  have hd01 : toroDist 10 10 [0, 3] [0, 4] 0 1 = 5 := by
    unfold toroDist
    simp only [List.getD]
    exact getEuclideanDistance_eval (by norm_num) (by norm_num)
  have hd10 : toroDist 10 10 [0, 3] [0, 4] 1 0 = 5 := by
    unfold toroDist
    simp only [List.getD]
    exact getEuclideanDistance_eval (by norm_num) (by norm_num)
  have hsmall : ∀ i j, i < ([0, 3] : List ℝ).length → j < ([0, 3] : List ℝ).length →
      i ≠ j → toroDist 10 10 [0, 3] [0, 4] i j < 1000 := by
    intro i j hi hj hij
    simp only [List.length_cons, List.length_nil] at hi hj
    interval_cases i <;> interval_cases j <;> simp_all [hd01, hd10] <;> norm_num
  exact claim2_findNeighbours_kth_mean 10 10 [0, 3] [0, 4] 1 le_rfl (by simp) hsmall

/-- C2 counterexample: two points at toroidal distance 2000 on a 4000 x
4000 plot, k = 1.  The distance exceeds the sentinel 1000, so the
structures keep their sentinels and findNeighbours returns 1000, not the
mean 1st-nearest distance 2000. -/
theorem claim2_counterexample :
    findNeighbours 4000 4000 [0, 2000] [0, 0] 1
    ≠ (∑ m ∈ Finset.range 2, kthNearestDist 4000 4000 [0, 2000] [0, 0] 1 m) / 2 := by
  have hd01 : toroDist 4000 4000 [0, 2000] [0, 0] 0 1 = 2000 := by
    unfold toroDist
    simp only [List.getD]
    exact getEuclideanDistance_eval (by norm_num) (by norm_num)
  have hd10 : toroDist 4000 4000 [0, 2000] [0, 0] 1 0 = 2000 := by
    unfold toroDist
    simp only [List.getD]
    exact getEuclideanDistance_eval (by norm_num) (by norm_num)
  have hf0 : ((List.range 2).filter (fun j => decide (j ≠ 0))) = [1] := rfl
  have hf1 : ((List.range 2).filter (fun j => decide (j ≠ 1))) = [0] := rfl
  have hn0 : neighborDists 4000 4000 [0, 2000] [0, 0] 0 = [2000] := by
    unfold neighborDists
    rw [show ([0, 2000] : List ℝ).length = 2 from rfl, hf0]
    rw [List.map_cons, List.map_nil, hd01]
  have hn1 : neighborDists 4000 4000 [0, 2000] [0, 0] 1 = [2000] := by
    unfold neighborDists
    rw [show ([0, 2000] : List ℝ).length = 2 from rfl, hf1]
    rw [List.map_cons, List.map_nil, hd10]
  have hh : heapVal 1 [(2000 : ℝ)] = 1000 := by
    unfold heapVal
    have hrep : List.replicate (1 + 1) DUMMY_LARGE_DISTANCE ++ [(2000 : ℝ)]
        = [1000, 1000, 2000] := by
      unfold DUMMY_LARGE_DISTANCE
      rfl
    rw [hrep]
    have hs : sortL [(1000 : ℝ), 1000, 2000] = [1000, 1000, 2000] := by
      apply sortL_of_sorted
      simp [List.sorted_cons]
      norm_num
    rw [hs]
    simp [pqPop, pqTop]
  have hkth0 : kthNearestDist 4000 4000 [0, 2000] [0, 0] 1 0 = 2000 := by
    unfold kthNearestDist
    rw [hn0, sortL_of_sorted (List.sorted_singleton 2000)]
    rfl
  have hkth1 : kthNearestDist 4000 4000 [0, 2000] [0, 0] 1 1 = 2000 := by
    unfold kthNearestDist
    rw [hn1, sortL_of_sorted (List.sorted_singleton 2000)]
    rfl
  rw [findNeighbours_heapVal]
  rw [show ([0, 2000] : List ℝ).length = 2 from rfl]
  rw [show (2 : ℕ) = 1 + 1 from rfl, Finset.sum_range_succ, Finset.sum_range_one,
    Finset.sum_range_succ, Finset.sum_range_one]
  rw [hn0, hn1, hh, hkth0, hkth1]
  norm_num

lemma getEuclideanDistance_eval_sqrt {xmax ymax x1 y1 x2 y2 v : ℝ}
    (h : min |x1 - x2| (xmax - |x1 - x2|) * min |x1 - x2| (xmax - |x1 - x2|)
       + min |y1 - y2| (ymax - |y1 - y2|) * min |y1 - y2| (ymax - |y1 - y2|) = v) :
    getEuclideanDistance xmax ymax x1 y1 x2 y2 = Real.sqrt v := by
  unfold getEuclideanDistance
  dsimp only
  rw [h]

lemma getEuclideanDistance_lt_1000 {xmax ymax x1 y1 x2 y2 : ℝ}
    (h : min |x1 - x2| (xmax - |x1 - x2|) * min |x1 - x2| (xmax - |x1 - x2|)
       + min |y1 - y2| (ymax - |y1 - y2|) * min |y1 - y2| (ymax - |y1 - y2|) < 1000000) :
    getEuclideanDistance xmax ymax x1 y1 x2 y2 < 1000 := by
  unfold getEuclideanDistance
  dsimp only
  rw [Real.sqrt_lt' (by norm_num : (0:ℝ) < 1000)]
  calc _ < (1000000 : ℝ) := h
  _ = 1000 ^ 2 := by norm_num

lemma ten_le_sqrt200 : (10 : ℝ) ≤ Real.sqrt 200 := by
  rw [show (10 : ℝ) = Real.sqrt 100 from (sqrt_eval (by norm_num) (by norm_num)).symm]
  exact Real.sqrt_le_sqrt (by norm_num)

/-- C3 (amended): under the sentinel bound (all toroidal inter-point
distances strictly below 1000), calcCE equals the mean first-nearest-
neighbour toroidal distance divided by the Poisson expectation
0.5 * sqrt(xmax * ymax / n); and the 4-point scenario on the 20 x 20
toroidal plot yields index exactly 2. -/
theorem claim3_calcCE_clark_evans :
    (∀ (xmax ymax : ℝ) (x y : List ℝ),
      2 ≤ x.length → 0 < xmax → 0 < ymax →
      (∀ i j, i < x.length → j < x.length → i ≠ j →
        toroDist xmax ymax x y i j < 1000) →
      calcCE xmax ymax x y
      = ((∑ m ∈ Finset.range x.length, nnDist xmax ymax x y m) / x.length)
        / (0.5 * Real.sqrt (xmax * ymax / x.length)))
    ∧ calcCE 20 20 [0, 10, 0, 10] [0, 0, 10, 10] = 2 := by
  constructor
  · intro xmax ymax x y hn _ _ hsmall
    exact calcCE_spec xmax ymax x y hn hsmall
  · have e01 : toroDist 20 20 [0, 10, 0, 10] [0, 0, 10, 10] 0 1 = 10 := by
      unfold toroDist
      simp only [List.getD]
      exact getEuclideanDistance_eval (by norm_num) (by norm_num)
    have e02 : toroDist 20 20 [0, 10, 0, 10] [0, 0, 10, 10] 0 2 = 10 := by
      unfold toroDist
      simp only [List.getD]
      exact getEuclideanDistance_eval (by norm_num) (by norm_num)
    have e03 : toroDist 20 20 [0, 10, 0, 10] [0, 0, 10, 10] 0 3 = Real.sqrt 200 := by
      unfold toroDist
      simp only [List.getD]
      exact getEuclideanDistance_eval_sqrt (by norm_num)
    have e12 : toroDist 20 20 [0, 10, 0, 10] [0, 0, 10, 10] 1 2 = Real.sqrt 200 := by
      unfold toroDist
      simp only [List.getD]
      exact getEuclideanDistance_eval_sqrt (by norm_num)
    have e13 : toroDist 20 20 [0, 10, 0, 10] [0, 0, 10, 10] 1 3 = 10 := by
      unfold toroDist
      simp only [List.getD]
      exact getEuclideanDistance_eval (by norm_num) (by norm_num)
    have e23 : toroDist 20 20 [0, 10, 0, 10] [0, 0, 10, 10] 2 3 = 10 := by
      unfold toroDist
      simp only [List.getD]
      exact getEuclideanDistance_eval (by norm_num) (by norm_num)
    have hsymm : ∀ i j, toroDist 20 20 [0, 10, 0, 10] [0, 0, 10, 10] i j
        = toroDist 20 20 [0, 10, 0, 10] [0, 0, 10, 10] j i := by
      intro i j
      unfold toroDist
      exact getEuclideanDistance_symm _ _ _ _ _ _
    have hsmall : ∀ i j, i < ([0, 10, 0, 10] : List ℝ).length →
        j < ([0, 10, 0, 10] : List ℝ).length → i ≠ j →
        toroDist 20 20 [0, 10, 0, 10] [0, 0, 10, 10] i j < 1000 := by
      intro i j hi hj hij
      simp only [List.length_cons, List.length_nil] at hi hj
      interval_cases i <;> interval_cases j <;>
        first
          | exact absurd rfl hij
          | (unfold toroDist
             simp only [List.getD]
             exact getEuclideanDistance_lt_1000 (by norm_num))
    have hspec := calcCE_spec 20 20 [0, 10, 0, 10] [0, 0, 10, 10] (by simp) hsmall
    have hnn : ∀ m, m < 4 → nnDist 20 20 [0, 10, 0, 10] [0, 0, 10, 10] m = 10 := by
      intro m hm
      unfold nnDist
      rw [show ([0, 10, 0, 10] : List ℝ).length = 4 from rfl]
      have hne : ((Finset.range 4).erase m).Nonempty := by
        interval_cases m <;> decide
      rw [dif_pos hne]
      apply le_antisymm
      · interval_cases m
        · calc ((Finset.range 4).erase 0).inf' hne (toroDist 20 20 [0, 10, 0, 10] [0, 0, 10, 10] 0)
              ≤ toroDist 20 20 [0, 10, 0, 10] [0, 0, 10, 10] 0 1 := Finset.inf'_le _ (by decide)
          _ = 10 := e01
        · calc ((Finset.range 4).erase 1).inf' hne (toroDist 20 20 [0, 10, 0, 10] [0, 0, 10, 10] 1)
              ≤ toroDist 20 20 [0, 10, 0, 10] [0, 0, 10, 10] 1 3 := Finset.inf'_le _ (by decide)
          _ = 10 := e13
        · calc ((Finset.range 4).erase 2).inf' hne (toroDist 20 20 [0, 10, 0, 10] [0, 0, 10, 10] 2)
              ≤ toroDist 20 20 [0, 10, 0, 10] [0, 0, 10, 10] 2 3 := Finset.inf'_le _ (by decide)
          _ = 10 := e23
        · calc ((Finset.range 4).erase 3).inf' hne (toroDist 20 20 [0, 10, 0, 10] [0, 0, 10, 10] 3)
              ≤ toroDist 20 20 [0, 10, 0, 10] [0, 0, 10, 10] 3 2 := Finset.inf'_le _ (by decide)
          _ = 10 := by rw [hsymm 3 2]; exact e23
      · apply Finset.le_inf'
        intro j hj
        have hj4 : j < 4 := Finset.mem_range.mp (Finset.mem_erase.mp hj).2
        have hjm : j ≠ m := (Finset.mem_erase.mp hj).1
        interval_cases m <;> interval_cases j <;>
          first
            | exact absurd rfl hjm
            | rw [e01]
            | rw [e02]
            | rw [e13]
            | rw [e23]
            | (rw [e03]; exact ten_le_sqrt200)
            | (rw [e12]; exact ten_le_sqrt200)
            | (rw [hsymm]
               first
                 | rw [e01]
                 | rw [e02]
                 | rw [e13]
                 | rw [e23]
                 | (rw [e03]; exact ten_le_sqrt200)
                 | (rw [e12]; exact ten_le_sqrt200))
    rw [hspec]
    have hsum : ∑ m ∈ Finset.range ([0, 10, 0, 10] : List ℝ).length,
        nnDist 20 20 [0, 10, 0, 10] [0, 0, 10, 10] m = 40 := by
      rw [show ([0, 10, 0, 10] : List ℝ).length = 4 from rfl]
      rw [show (4 : ℕ) = 3 + 1 from rfl, Finset.sum_range_succ]
      rw [show (3 : ℕ) = 2 + 1 from rfl, Finset.sum_range_succ]
      rw [show (2 : ℕ) = 1 + 1 from rfl, Finset.sum_range_succ, Finset.sum_range_one]
      rw [hnn 0 (by norm_num), hnn 1 (by norm_num), hnn 2 (by norm_num), hnn 3 (by norm_num)]
      norm_num
    rw [hsum]
    rw [show ([0, 10, 0, 10] : List ℝ).length = 4 from rfl]
    rw [show (20 * 20 / ((4 : ℕ) : ℝ)) = 100 by norm_num]
    rw [sqrt_eval (by norm_num : (0:ℝ) ≤ 10) (by norm_num)]
    norm_num

/-- Witness for C3: the general conjunct applied at a concrete two-point
input with all hypotheses discharged. -/
theorem claim3_witness :
    calcCE 10 10 [0, 3] [0, 4]
    = ((∑ m ∈ Finset.range 2, nnDist 10 10 [0, 3] [0, 4] m) / 2)
      / (0.5 * Real.sqrt (10 * 10 / 2)) := by
  have hsmall : ∀ i j, i < ([0, 3] : List ℝ).length → j < ([0, 3] : List ℝ).length →
      i ≠ j → toroDist 10 10 [0, 3] [0, 4] i j < 1000 := by
    intro i j hi hj hij
    simp only [List.length_cons, List.length_nil] at hi hj
    interval_cases i <;> interval_cases j <;>
      first
        | exact absurd rfl hij
        | (unfold toroDist
           simp only [List.getD]
           exact getEuclideanDistance_lt_1000 (by norm_num))
  exact claim3_calcCE_clark_evans.1 10 10 [0, 3] [0, 4] (by simp) (by norm_num)
    (by norm_num) hsmall

/-- C3 counterexample: two points at toroidal distance 1500 on a
3000 x 3000 plot.  The distance exceeds the sentinel 1000, so calcCE
returns the sentinel-based value, not dbar / d_poisson. -/
theorem claim3_counterexample :
    calcCE 3000 3000 [0, 1500] [0, 0]
    ≠ ((∑ m ∈ Finset.range 2, nnDist 3000 3000 [0, 1500] [0, 0] m) / 2)
      / (0.5 * Real.sqrt (3000 * 3000 / 2)) := by
  have hd01 : toroDist 3000 3000 [0, 1500] [0, 0] 0 1 = 1500 := by
    unfold toroDist
    simp only [List.getD]
    exact getEuclideanDistance_eval (by norm_num) (by norm_num)
  have hd10 : toroDist 3000 3000 [0, 1500] [0, 0] 1 0 = 1500 := by
    unfold toroDist
    simp only [List.getD]
    exact getEuclideanDistance_eval (by norm_num) (by norm_num)
  have hn0 : neighborDists 3000 3000 [0, 1500] [0, 0] 0 = [1500] := by
    unfold neighborDists
    rw [show ([0, 1500] : List ℝ).length = 2 from rfl,
      show ((List.range 2).filter (fun j => decide (j ≠ 0))) = [1] from rfl]
    rw [List.map_cons, List.map_nil, hd01]
  have hn1 : neighborDists 3000 3000 [0, 1500] [0, 0] 1 = [1500] := by
    unfold neighborDists
    rw [show ([0, 1500] : List ℝ).length = 2 from rfl,
      show ((List.range 2).filter (fun j => decide (j ≠ 1))) = [0] from rfl]
    rw [List.map_cons, List.map_nil, hd10]
  have hh : heapVal 1 [(1500 : ℝ)] = 1000 := by
    unfold heapVal
    have hrep : List.replicate (1 + 1) DUMMY_LARGE_DISTANCE ++ [(1500 : ℝ)]
        = [1000, 1000, 1500] := by
      unfold DUMMY_LARGE_DISTANCE
      rfl
    rw [hrep]
    have hs : sortL [(1000 : ℝ), 1000, 1500] = [1000, 1000, 1500] := by
      apply sortL_of_sorted
      simp [List.sorted_cons]
      norm_num
    rw [hs]
    simp [pqPop, pqTop]
  have hnn0 : nnDist 3000 3000 [0, 1500] [0, 0] 0 = 1500 := by
    unfold nnDist
    rw [show ([0, 1500] : List ℝ).length = 2 from rfl]
    have hne : ((Finset.range 2).erase 0).Nonempty := by decide
    rw [dif_pos hne]
    apply le_antisymm
    · calc ((Finset.range 2).erase 0).inf' hne (toroDist 3000 3000 [0, 1500] [0, 0] 0)
          ≤ toroDist 3000 3000 [0, 1500] [0, 0] 0 1 := Finset.inf'_le _ (by decide)
      _ = 1500 := hd01
    · apply Finset.le_inf'
      intro j hj
      have hj2 : j < 2 := Finset.mem_range.mp (Finset.mem_erase.mp hj).2
      have hjm : j ≠ 0 := (Finset.mem_erase.mp hj).1
      have hj1 : j = 1 := by omega
      rw [hj1, hd01]
  have hnn1 : nnDist 3000 3000 [0, 1500] [0, 0] 1 = 1500 := by
    unfold nnDist
    rw [show ([0, 1500] : List ℝ).length = 2 from rfl]
    have hne : ((Finset.range 2).erase 1).Nonempty := by decide
    rw [dif_pos hne]
    apply le_antisymm
    · calc ((Finset.range 2).erase 1).inf' hne (toroDist 3000 3000 [0, 1500] [0, 0] 1)
          ≤ toroDist 3000 3000 [0, 1500] [0, 0] 1 0 := Finset.inf'_le _ (by decide)
      _ = 1500 := hd10
    · apply Finset.le_inf'
      intro j hj
      have hj2 : j < 2 := Finset.mem_range.mp (Finset.mem_erase.mp hj).2
      have hjm : j ≠ 1 := (Finset.mem_erase.mp hj).1
      have hj0 : j = 0 := by omega
      rw [hj0, hd10]
  unfold calcCE
  dsimp only
  rw [findNeighbours_heapVal]
  rw [show ([0, 1500] : List ℝ).length = 2 from rfl]
  rw [show (2 : ℕ) = 1 + 1 from rfl, Finset.sum_range_succ, Finset.sum_range_one,
    Finset.sum_range_succ, Finset.sum_range_one]
  rw [hn0, hn1, hh, hnn0, hnn1]
  have hcast : (((1 + 1 : ℕ)) : ℝ) = 2 := by norm_num
  rw [hcast]
  have hP : (0 : ℝ) < 0.5 * Real.sqrt (3000 * 3000 / 2) := by
    have h2 : (0 : ℝ) < Real.sqrt (3000 * 3000 / 2) :=
      Real.sqrt_pos.mpr (by norm_num)
    nlinarith
  intro heq
  have h1000 : (1000 + 1000) / (2 : ℝ) = 1000 := by norm_num
  have h1500 : ((1500 : ℝ) + 1500) / (2 : ℝ) = 1500 := by norm_num
  rw [h1000, h1500] at heq
  rw [div_eq_div_iff (ne_of_gt hP) (ne_of_gt hP)] at heq
  nlinarith [hP]

end NumericUtilities

lemma list_range_map_sum (f : ℕ → ℝ) (n : ℕ) :
    ((List.range n).map f).sum = ∑ i ∈ Finset.range n, f i := by
  induction n with
  | zero => simp
  | succ n ih =>
    rw [List.range_succ, List.map_append, List.sum_append, Finset.sum_range_succ, ih]
    simp

lemma foldl_if_skip {α : Type} (l : List ℕ) (i : ℕ) (g : α → ℕ → α) (init : α) :
    l.foldl (fun acc j => if i = j then acc else g acc j) init
    = (l.filter (fun j => decide (j ≠ i))).foldl g init := by
  induction l generalizing init with
  | nil => rfl
  | cons j t ih =>
    simp only [List.foldl_cons, List.filter_cons]
    by_cases hj : i = j
    · rw [if_pos hj, if_neg (by simp [hj])]
      exact ih init
    · rw [if_neg hj, if_pos (by simpa using fun hc => hj hc.symm)]
      simp only [List.foldl_cons]
      exact ih (g init j)

lemma foldl_comp_map {α β γ : Type} (l : List β) (f : β → γ) (g : α → γ → α) (init : α) :
    l.foldl (fun acc j => g acc (f j)) init = (l.map f).foldl g init := by
  induction l generalizing init with
  | nil => rfl
  | cons b t ih =>
    simp only [List.foldl_cons, List.map_cons]
    exact ih (g init (f b))

lemma foldl_min_mem_le (L : List ℝ) (init : ℝ) :
    (L.foldl (fun md d => if d < md then d else md) init ∈ init :: L)
    ∧ ∀ z ∈ init :: L, L.foldl (fun md d => if d < md then d else md) init ≤ z := by
  induction L generalizing init with
  | nil =>
    constructor
    · exact List.mem_cons_self _ _
    · intro z hz
      rcases List.mem_cons.mp hz with h | h
      · exact le_of_eq h.symm
      · simp at h
  | cons d t ih =>
    simp only [List.foldl_cons]
    obtain ⟨ihm, ihle⟩ := ih (if d < init then d else init)
    constructor
    · by_cases hd : d < init
      · rw [if_pos hd] at ihm ⊢
        rcases List.mem_cons.mp ihm with h | h
        · rw [h]
          exact List.mem_cons_of_mem _ (List.mem_cons_self _ _)
        · exact List.mem_cons_of_mem _ (List.mem_cons_of_mem _ h)
      · rw [if_neg hd] at ihm ⊢
        rcases List.mem_cons.mp ihm with h | h
        · rw [h]
          exact List.mem_cons_self _ _
        · exact List.mem_cons_of_mem _ (List.mem_cons_of_mem _ h)
    · intro z hz
      have hstep_init : (if d < init then d else init) ≤ init := by
        by_cases hd : d < init
        · rw [if_pos hd]; exact le_of_lt hd
        · rw [if_neg hd]
      have hstep_d : (if d < init then d else init) ≤ d := by
        by_cases hd : d < init
        · rw [if_pos hd]
        · rw [if_neg hd]; exact not_lt.mp hd
      have hfold_le : t.foldl (fun md d => if d < md then d else md)
          (if d < init then d else init) ≤ (if d < init then d else init) :=
        ihle _ (List.mem_cons_self _ _)
      rcases List.mem_cons.mp hz with h | h
      · rw [h]
        exact le_trans hfold_le hstep_init
      · rcases List.mem_cons.mp h with h' | h'
        · rw [h']
          exact le_trans hfold_le hstep_d
        · exact ihle z (List.mem_cons_of_mem _ h')

/-- A running minimum seeded above every value computes the minimum, which
is the head of the ascending sort. -/
lemma foldl_min_eq_sorted_head {L : List ℝ} {init : ℝ} (hne : L ≠ [])
    (hsm : ∀ z ∈ L, z < 1000) (hinit : (1000 : ℝ) ≤ init) :
    L.foldl (fun md d => if d < md then d else md) init = (sortL L).getD 0 0 := by
  obtain ⟨hhead_mem, hhead_min⟩ := NumericUtilities.sortL_head_min hne
  obtain ⟨hfm, hfle⟩ := foldl_min_mem_le L init
  apply le_antisymm
  · exact hfle _ (List.mem_cons_of_mem _ hhead_mem)
  · rcases List.mem_cons.mp hfm with h | h
    · rw [h]
      exact le_trans (le_of_lt (lt_of_lt_of_le (hsm _ hhead_mem) hinit)) le_rfl
    · exact hhead_min _ h

namespace SrcNumericUtilities

/-- Toroidal Euclidean distance of src/NumericUtilities.cpp (identical
formula to the src/src variant). -/
noncomputable def getEuclideanDistance (xmax ymax x1 y1 x2 y2 : ℝ) : ℝ :=
  let dx := |x1 - x2|
  let dy := |y1 - y2|
  let dxw := min dx (xmax - dx)
  let dyw := min dy (ymax - dy)
  Real.sqrt (dxw * dxw + dyw * dyw)

lemma getEuclideanDistance_eq :
    getEuclideanDistance = NumericUtilities.getEuclideanDistance := rfl

/-- DBL_MAX, written to the diagonal of the distance matrix
(std::numeric_limits<double>::max() = (2 - 2^-52) * 2^1023). -/
noncomputable def dblMax : ℝ := 2 ^ 1024 - 2 ^ 971

lemma thousand_lt_dblMax : (1000 : ℝ) < dblMax := by
  unfold dblMax
  have h1 : (2 : ℝ) ^ 971 * 1 < 2 ^ 971 * (2 ^ 53 - 1) := by
    have : (1 : ℝ) < 2 ^ 53 - 1 := by norm_num
    have h2 : (0 : ℝ) < 2 ^ 971 := by positivity
    nlinarith
  have h3 : (2 : ℝ) ^ 971 * (2 ^ 53 - 1) = 2 ^ 1024 - 2 ^ 971 := by
    rw [mul_sub, ← pow_add]
    norm_num
  have h4 : (1000 : ℝ) < 2 ^ 971 * 1 := by
    rw [mul_one]
    calc (1000 : ℝ) < 2 ^ 10 := by norm_num
    _ ≤ 2 ^ 971 := pow_le_pow_right₀ (by norm_num) (by norm_num)
  linarith

/-- findNeighboursParallel of src/NumericUtilities.cpp: build the full
toroidal distance matrix with DBL_MAX on the diagonal (the RcppParallel
worker fills disjoint rows, modelled sequentially); for each row,
nth_element places the `mi` smallest entries in the prefix whose mean is
returned — modelled by a full ascending sort of the row. -/
noncomputable def findNeighboursParallel (x y : List ℝ) (xmax ymax : ℝ) (mi : ℕ) : List ℝ :=
  (List.range x.length).map (fun i =>
    ((sortL ((List.range x.length).map (fun j =>
      if i = j then dblMax
      else getEuclideanDistance xmax ymax (x.getD i 0) (y.getD i 0)
        (x.getD j 0) (y.getD j 0)))).take mi).sum / mi)

/-- calcCE of src/NumericUtilities.cpp: mean of the per-point average
1-nearest distances divided by the Poisson expectation. -/
noncomputable def calcCE (xmax ymax : ℝ) (x y : List ℝ) : ℝ :=
  let avgDistances := findNeighboursParallel x y xmax ymax 1
  let d1 := avgDistances.sum / avgDistances.length
  let na := x.length
  let d1Poisson := 0.5 * Real.sqrt (xmax * ymax / na)
  d1 / d1Poisson

/-- Each row, sorted, starts with the 1-nearest distance when every real
distance is below 1000 (so below DBL_MAX). -/
lemma row_take_one {xmax ymax : ℝ} {x y : List ℝ} {i : ℕ}
    (hn : 2 ≤ x.length) (hi : i < x.length)
    (hsmall : ∀ j, j < x.length → j ≠ i →
      NumericUtilities.toroDist xmax ymax x y i j < 1000) :
    ((sortL ((List.range x.length).map (fun j =>
      if i = j then dblMax
      else getEuclideanDistance xmax ymax (x.getD i 0) (y.getD i 0)
        (x.getD j 0) (y.getD j 0)))).take 1).sum
    = NumericUtilities.kthNearestDist xmax ymax x y 1 i := by
  set L := NumericUtilities.neighborDists xmax ymax x y i with hL
  have hLlen : L.length = x.length - 1 := NumericUtilities.neighborDists_length hi
  have hLne : L ≠ [] := by
    intro h
    rw [h] at hLlen
    simp at hLlen
    omega
  have hrowperm : List.Perm ((List.range x.length).map (fun j =>
      if i = j then dblMax
      else getEuclideanDistance xmax ymax (x.getD i 0) (y.getD i 0)
        (x.getD j 0) (y.getD j 0))) (dblMax :: L) := by
    have himem : i ∈ List.range x.length := List.mem_range.mpr hi
    have hperm1 : List.Perm (List.range x.length) (i :: (List.range x.length).erase i) :=
      List.perm_cons_erase himem
    have herase : (List.range x.length).erase i
        = (List.range x.length).filter (fun j => decide (j ≠ i)) := by
      rw [List.Nodup.erase_eq_filter (List.nodup_range _) i]
      apply List.filter_congr
      intro j _
      simp only [bne, ne_eq, decide_not]
      rfl
    have hmapeq : ((i :: (List.range x.length).erase i).map (fun j =>
        if i = j then dblMax
        else getEuclideanDistance xmax ymax (x.getD i 0) (y.getD i 0)
          (x.getD j 0) (y.getD j 0))) = dblMax :: L := by
      rw [List.map_cons, if_pos rfl, herase, hL]
      congr 1
      unfold NumericUtilities.neighborDists
      apply List.map_congr_left
      intro j hj
      rcases List.mem_filter.mp hj with ⟨_, hjne⟩
      have hjne' : j ≠ i := by simpa using hjne
      rw [if_neg (fun hc => hjne' hc.symm)]
      rfl
    have hcomb := hperm1.map (fun j =>
      if i = j then dblMax
      else getEuclideanDistance xmax ymax (x.getD i 0) (y.getD i 0)
        (x.getD j 0) (y.getD j 0))
    rw [hmapeq] at hcomb
    exact hcomb
  have hsL : sortL ((List.range x.length).map (fun j =>
      if i = j then dblMax
      else getEuclideanDistance xmax ymax (x.getD i 0) (y.getD i 0)
        (x.getD j 0) (y.getD j 0)))
      = List.orderedInsert (· ≤ ·) dblMax (sortL L) := by
    have hp : List.Perm (sortL ((List.range x.length).map (fun j =>
        if i = j then dblMax
        else getEuclideanDistance xmax ymax (x.getD i 0) (y.getD i 0)
          (x.getD j 0) (y.getD j 0))))
        (List.orderedInsert (· ≤ ·) dblMax (sortL L)) :=
      ((sortL_perm _).trans (hrowperm.trans ((sortL_perm L).symm.cons dblMax))).trans
        (List.perm_orderedInsert _ dblMax _).symm
    have hs2 : (List.orderedInsert (· ≤ ·) dblMax (sortL L)).Sorted (· ≤ ·) :=
      (sortL_sorted L).orderedInsert _ _
    exact List.eq_of_perm_of_sorted hp (sortL_sorted _) hs2
  rw [hsL]
  obtain ⟨hhm, _⟩ := NumericUtilities.sortL_head_min hLne
  cases hDL : sortL L with
  | nil =>
    have := sortL_length L
    rw [hDL] at this
    simp at this
    omega
  | cons a t =>
    have hamem : a ∈ L := by
      rw [hDL] at hhm
      simpa using hhm
    have ha1000 : a < 1000 := by
      rw [hL] at hamem
      unfold NumericUtilities.neighborDists at hamem
      rcases List.mem_map.mp hamem with ⟨j, hj, rfl⟩
      rcases List.mem_filter.mp hj with ⟨hjr, hjne⟩
      exact hsmall j (List.mem_range.mp hjr) (by simpa using hjne)
    have hnotle : ¬ dblMax ≤ a :=
      not_le.mpr (lt_trans ha1000 thousand_lt_dblMax)
    rw [List.orderedInsert]
    rw [if_neg hnotle]
    simp only [List.take_succ_cons, List.take_zero, List.sum_cons, List.sum_nil]
    unfold NumericUtilities.kthNearestDist
    rw [← hL, hDL]
    simp

/-- calcCE of src/NumericUtilities.cpp under the sentinel bound. -/
lemma srcCalcCE_spec (xmax ymax : ℝ) (x y : List ℝ) (hn : 2 ≤ x.length)
    (hsmall : ∀ i j, i < x.length → j < x.length → i ≠ j →
      NumericUtilities.toroDist xmax ymax x y i j < 1000) :
    calcCE xmax ymax x y
    = ((∑ m ∈ Finset.range x.length,
        NumericUtilities.kthNearestDist xmax ymax x y 1 m) / x.length)
      / (0.5 * Real.sqrt (xmax * ymax / x.length)) := by
  unfold calcCE findNeighboursParallel
  dsimp only
  rw [List.length_map, List.length_range]
  congr 2
  rw [list_range_map_sum]
  apply Finset.sum_congr rfl
  intro i hi
  have hi' : i < x.length := Finset.mem_range.mp hi
  have hrow := row_take_one hn hi' (fun j hj hne => hsmall i j hi' hj (fun hc => hne hc.symm))
  rw [hrow]
  norm_num

end SrcNumericUtilities

namespace OptimizedUtilitiesOpenMP

/-- calcCEParallel of src/src/OptimizedUtilitiesOpenMP.cpp: for each point,
a running minimum over all other points seeded with the sentinel 1e10; the
toroidal metric is inlined in the source with exactly the formula of
getEuclideanDistance.  The OpenMP parallel-for writes disjoint entries of
nearest_dist and is modelled as a sequential map; n_threads only sets the
thread count and does not affect the result. -/
noncomputable def calcCEParallel (xmax ymax : ℝ) (x y : List ℝ) (n_threads : ℕ) : ℝ :=
  let na := x.length
  let nearest_dist := (List.range na).map (fun i =>
    (List.range na).foldl (fun min_d j =>
      if i = j then min_d
      else
        if NumericUtilities.getEuclideanDistance xmax ymax (x.getD i 0) (y.getD i 0)
            (x.getD j 0) (y.getD j 0) < min_d
        then NumericUtilities.getEuclideanDistance xmax ymax (x.getD i 0) (y.getD i 0)
          (x.getD j 0) (y.getD j 0)
        else min_d) (1e10 : ℝ))
  let d1 := nearest_dist.sum / na
  let d1Poisson := 0.5 * Real.sqrt (xmax * ymax / na)
  d1 / d1Poisson

/-- calcCEParallel under the sentinel bound equals the mean 1-nearest
toroidal distance over the Poisson expectation. -/
lemma calcCEParallel_spec (xmax ymax : ℝ) (x y : List ℝ) (nt : ℕ) (hn : 2 ≤ x.length)
    (hsmall : ∀ i j, i < x.length → j < x.length → i ≠ j →
      NumericUtilities.toroDist xmax ymax x y i j < 1000) :
    calcCEParallel xmax ymax x y nt
    = ((∑ m ∈ Finset.range x.length,
        NumericUtilities.kthNearestDist xmax ymax x y 1 m) / x.length)
      / (0.5 * Real.sqrt (xmax * ymax / x.length)) := by
  unfold calcCEParallel
  dsimp only
  congr 2
  rw [list_range_map_sum]
  apply Finset.sum_congr rfl
  intro i hi
  have hi' : i < x.length := Finset.mem_range.mp hi
  rw [foldl_if_skip]
  rw [foldl_comp_map ((List.range x.length).filter (fun j => decide (j ≠ i)))
    (fun j => NumericUtilities.getEuclideanDistance xmax ymax (x.getD i 0) (y.getD i 0)
      (x.getD j 0) (y.getD j 0))
    (fun md d => if d < md then d else md) (1e10 : ℝ)]
  have hmap : ((List.range x.length).filter (fun j => decide (j ≠ i))).map
      (fun j => NumericUtilities.getEuclideanDistance xmax ymax (x.getD i 0) (y.getD i 0)
        (x.getD j 0) (y.getD j 0))
      = NumericUtilities.neighborDists xmax ymax x y i := rfl
  rw [hmap]
  have hLlen := @NumericUtilities.neighborDists_length xmax ymax x y i hi'
  have hLne : NumericUtilities.neighborDists xmax ymax x y i ≠ [] := by
    intro h
    rw [h] at hLlen
    simp at hLlen
    omega
  have hsm : ∀ z ∈ NumericUtilities.neighborDists xmax ymax x y i, z < 1000 := by
    intro z hz
    unfold NumericUtilities.neighborDists at hz
    rcases List.mem_map.mp hz with ⟨j, hj, rfl⟩
    rcases List.mem_filter.mp hj with ⟨hjr, hjne⟩
    have hjne' : j ≠ i := by simpa using hjne
    exact hsmall i j hi' (List.mem_range.mp hjr) (fun hc => hjne' hc.symm)
  rw [foldl_min_eq_sorted_head hLne hsm (by norm_num)]
  rfl

end OptimizedUtilitiesOpenMP

/-- C10 (amended): provided every toroidal inter-point distance lies
strictly below the sentinel 1000 of the src/src implementation, the three
exported Clark-Evans implementations (priority-queue calcCE, distance-
matrix calcCE, running-minimum calcCEParallel) return equal values. -/
theorem claim10_calcCE_implementations_agree (xmax ymax : ℝ) (x y : List ℝ) (nt : ℕ)
    (hn : 2 ≤ x.length)
    (hsmall : ∀ i j, i < x.length → j < x.length → i ≠ j →
      NumericUtilities.toroDist xmax ymax x y i j < 1000) :
    NumericUtilities.calcCE xmax ymax x y = SrcNumericUtilities.calcCE xmax ymax x y
    ∧ NumericUtilities.calcCE xmax ymax x y
      = OptimizedUtilitiesOpenMP.calcCEParallel xmax ymax x y nt := by
  have h1 : NumericUtilities.calcCE xmax ymax x y
      = ((∑ m ∈ Finset.range x.length,
          NumericUtilities.kthNearestDist xmax ymax x y 1 m) / x.length)
        / (0.5 * Real.sqrt (xmax * ymax / x.length)) := by
    unfold NumericUtilities.calcCE
    dsimp only
    rw [NumericUtilities.findNeighbours_spec xmax ymax x y 1 le_rfl (by omega) hsmall]
  constructor
  · rw [h1, SrcNumericUtilities.srcCalcCE_spec xmax ymax x y hn hsmall]
  · rw [h1, OptimizedUtilitiesOpenMP.calcCEParallel_spec xmax ymax x y nt hn hsmall]

/-- Witness for C10 at two points (0,0) and (3,4) on a 10 x 10 plot. -/
theorem claim10_witness :
    NumericUtilities.calcCE 10 10 [0, 3] [0, 4]
      = SrcNumericUtilities.calcCE 10 10 [0, 3] [0, 4]
    ∧ NumericUtilities.calcCE 10 10 [0, 3] [0, 4]
      = OptimizedUtilitiesOpenMP.calcCEParallel 10 10 [0, 3] [0, 4] 0 := by
  have hsmall : ∀ i j, i < ([0, 3] : List ℝ).length → j < ([0, 3] : List ℝ).length →
      i ≠ j → NumericUtilities.toroDist 10 10 [0, 3] [0, 4] i j < 1000 := by
    intro i j hi hj hij
    simp only [List.length_cons, List.length_nil] at hi hj
    interval_cases i <;> interval_cases j <;>
      first
        | exact absurd rfl hij
        | (unfold NumericUtilities.toroDist
           simp only [List.getD]
           exact NumericUtilities.getEuclideanDistance_lt_1000 (by norm_num))
  exact claim10_calcCE_implementations_agree 10 10 [0, 3] [0, 4] 0 (by simp) hsmall

lemma twok_le_dblMax : (2048 : ℝ) ≤ SrcNumericUtilities.dblMax := by
  unfold SrcNumericUtilities.dblMax
  have h1 : (2 : ℝ) ^ 971 * 1 < 2 ^ 971 * (2 ^ 53 - 1) := by
    have h0 : (1 : ℝ) < 2 ^ 53 - 1 := by norm_num
    have h2 : (0 : ℝ) < 2 ^ 971 := by positivity
    nlinarith
  have h3 : (2 : ℝ) ^ 971 * (2 ^ 53 - 1) = 2 ^ 1024 - 2 ^ 971 := by
    rw [mul_sub, ← pow_add]
    norm_num
  have h4 : (2048 : ℝ) ≤ 2 ^ 971 * 1 := by
    rw [mul_one]
    calc (2048 : ℝ) = 2 ^ 11 := by norm_num
    _ ≤ 2 ^ 971 := pow_le_pow_right₀ (by norm_num) (by norm_num)
  linarith

/-- C10 counterexample: two points at toroidal distance 1200 on a
2400 x 2400 plot.  The src/src implementation's sentinel 1000 caps the
reported nearest distance at 1000, while the src distance-matrix
implementation reports the true distance 1200; the two calcCE values
differ. -/
theorem claim10_counterexample :
    NumericUtilities.calcCE 2400 2400 [0, 1200] [0, 0]
    ≠ SrcNumericUtilities.calcCE 2400 2400 [0, 1200] [0, 0] := by
  have hd01 : NumericUtilities.toroDist 2400 2400 [0, 1200] [0, 0] 0 1 = 1200 := by
    unfold NumericUtilities.toroDist
    simp only [List.getD]
    exact NumericUtilities.getEuclideanDistance_eval (by norm_num) (by norm_num)
  have hd10 : NumericUtilities.toroDist 2400 2400 [0, 1200] [0, 0] 1 0 = 1200 := by
    unfold NumericUtilities.toroDist
    simp only [List.getD]
    exact NumericUtilities.getEuclideanDistance_eval (by norm_num) (by norm_num)
  have hn0 : NumericUtilities.neighborDists 2400 2400 [0, 1200] [0, 0] 0 = [1200] := by
    unfold NumericUtilities.neighborDists
    rw [show ([0, 1200] : List ℝ).length = 2 from rfl,
      show ((List.range 2).filter (fun j => decide (j ≠ 0))) = [1] from rfl]
    rw [List.map_cons, List.map_nil, hd01]
  have hn1 : NumericUtilities.neighborDists 2400 2400 [0, 1200] [0, 0] 1 = [1200] := by
    unfold NumericUtilities.neighborDists
    rw [show ([0, 1200] : List ℝ).length = 2 from rfl,
      show ((List.range 2).filter (fun j => decide (j ≠ 1))) = [0] from rfl]
    rw [List.map_cons, List.map_nil, hd10]
  have hh : NumericUtilities.heapVal 1 [(1200 : ℝ)] = 1000 := by
    unfold NumericUtilities.heapVal
    have hrep : List.replicate (1 + 1) NumericUtilities.DUMMY_LARGE_DISTANCE ++ [(1200 : ℝ)]
        = [1000, 1000, 1200] := by
      unfold NumericUtilities.DUMMY_LARGE_DISTANCE
      rfl
    rw [hrep]
    have hs : sortL [(1000 : ℝ), 1000, 1200] = [1000, 1000, 1200] := by
      apply sortL_of_sorted
      simp [List.sorted_cons]
      norm_num
    rw [hs]
    simp [pqPop, pqTop]
  have hLHS : NumericUtilities.calcCE 2400 2400 [0, 1200] [0, 0]
      = 1000 / (0.5 * Real.sqrt (2400 * 2400 / 2)) := by
    unfold NumericUtilities.calcCE
    dsimp only
    rw [NumericUtilities.findNeighbours_heapVal]
    rw [show ([0, 1200] : List ℝ).length = 2 from rfl]
    rw [show (2 : ℕ) = 1 + 1 from rfl, Finset.sum_range_succ, Finset.sum_range_one]
    rw [hn0, hn1, hh]
    norm_num
  have hgE01 : SrcNumericUtilities.getEuclideanDistance 2400 2400 0 0 1200 0 = 1200 := by
    rw [SrcNumericUtilities.getEuclideanDistance_eq]
    exact NumericUtilities.getEuclideanDistance_eval (by norm_num) (by norm_num)
  have hgE10 : SrcNumericUtilities.getEuclideanDistance 2400 2400 1200 0 0 0 = 1200 := by
    rw [SrcNumericUtilities.getEuclideanDistance_eq]
    exact NumericUtilities.getEuclideanDistance_eval (by norm_num) (by norm_num)
  have hsort : sortL [SrcNumericUtilities.dblMax, 1200]
      = [1200, SrcNumericUtilities.dblMax] := by
    have hp : List.Perm [SrcNumericUtilities.dblMax, (1200 : ℝ)]
        [(1200 : ℝ), SrcNumericUtilities.dblMax] := List.Perm.swap _ _ _
    rw [sortL_congr hp]
    apply sortL_of_sorted
    simp [List.sorted_cons]
    linarith [twok_le_dblMax]
  have hRHS : SrcNumericUtilities.calcCE 2400 2400 [0, 1200] [0, 0]
      = 1200 / (0.5 * Real.sqrt (2400 * 2400 / 2)) := by
    unfold SrcNumericUtilities.calcCE SrcNumericUtilities.findNeighboursParallel
    dsimp only
    rw [show ([0, 1200] : List ℝ).length = 2 from rfl]
    rw [show List.range 2 = [0, 1] from rfl]
    simp only [List.map_cons, List.map_nil, List.getD]
    norm_num
    rw [hgE01, hgE10, hsort]
    have hsort2 : sortL [(1200 : ℝ), SrcNumericUtilities.dblMax]
        = [1200, SrcNumericUtilities.dblMax] := by
      apply sortL_of_sorted
      simp [List.sorted_cons]
      linarith [twok_le_dblMax]
    rw [hsort2]
    norm_num
  rw [hLHS, hRHS]
  have hP : (0 : ℝ) < 0.5 * Real.sqrt (2400 * 2400 / 2) := by
    have h2 : (0 : ℝ) < Real.sqrt (2400 * 2400 / 2) :=
      Real.sqrt_pos.mpr (by norm_num)
    nlinarith
  intro heq
  rw [div_eq_div_iff (ne_of_gt hP) (ne_of_gt hP)] at heq
  nlinarith [hP]

namespace OptimizedUtilities

/-- Number of grid cells per axis: `ceil(plot_size / grid_res)`. -/
def n_cellsOf (plot_size grid_res : ℚ) : ℤ := ⌈plot_size / grid_res⌉

/-- All cell indices of the coverage grid (the source flattens the grid as
`yi * n_cells + xi`; cells are modelled as index pairs). -/
def allCells (n_cells : ℤ) : Finset (ℤ × ℤ) :=
  Finset.Icc 0 (n_cells - 1) ×ˢ Finset.Icc 0 (n_cells - 1)

/-- The squared-distance coverage test shared verbatim by all three canopy
cover variants: is the center of cell `(xi, yi)` within radius `r` of the
tree at `(tx, ty)`?  (`dx*dx + dy*dy <= r*r` in the source.) -/
def cellDistSqLe (xi yi : ℤ) (grid_res tx ty r : ℚ) : Bool :=
  decide ((((xi : ℚ) + 1 / 2) * grid_res - tx) * (((xi : ℚ) + 1 / 2) * grid_res - tx)
    + ((((yi : ℚ) + 1 / 2) * grid_res - ty) * ((((yi : ℚ) + 1 / 2) * grid_res - ty)))
    ≤ r * r)

/-- The cells marked for one footprint by calcCanopyCoverCpp: the clamped
bounding box in grid coordinates, filtered by the squared-distance test
against the cell centers. -/
def treeBoxCells (cx cy r : ℚ) (n_cells : ℤ) (grid_res : ℚ) : Finset (ℤ × ℤ) :=
  let x_min := max 0 ⌊(cx - r) / grid_res⌋
  let x_max := min (n_cells - 1) ⌈(cx + r) / grid_res⌉
  let y_min := max 0 ⌊(cy - r) / grid_res⌋
  let y_max := min (n_cells - 1) ⌈(cy + r) / grid_res⌉
  (Finset.Icc x_min x_max ×ˢ Finset.Icc y_min y_max).filter (fun c =>
    cellDistSqLe c.1 c.2 grid_res cx cy r = true)

/-- calcCanopyCoverCpp of src/src/OptimizedUtilities.cpp (direct variant):
for each tree, mark the cells of its bounding box whose center passes the
squared-radius test; marking is monotone, so the boolean grid is modelled
as the set of marked cells accumulated by a fold of unions; finally count
the marked cells among all grid cells and divide by the cell count. -/
def calcCanopyCoverCpp (x y crown_radius : List ℚ) (plot_size grid_res : ℚ) : ℚ :=
  let n_trees := x.length
  let n_cells := n_cellsOf plot_size grid_res
  let grid := (List.range n_trees).foldl (fun g i =>
    g ∪ treeBoxCells (x.getD i 0) (y.getD i 0) (crown_radius.getD i 0) n_cells grid_res) ∅
  let covered := ((allCells n_cells).filter (fun c => c ∈ grid)).card
  (covered : ℚ) / ((n_cells * n_cells : ℤ) : ℚ)

/-- Flattened bucket index `iy * n_cells_x + ix` computed by
SpatialGrid::addPoint (the per-axis index is clamped from above only). -/
def getGridIndex (n_cells_x n_cells_y : ℤ) (cell_size : ℚ) (qx qy : ℚ) : ℤ :=
  let ix := min (n_cells_x - 1) ⌊qx / cell_size⌋
  let iy := min (n_cells_y - 1) ⌊qy / cell_size⌋
  iy * n_cells_x + ix

/-- The buckets of the SpatialGrid after `addPoint`-ing every tree in
order (push_back appends to the bucket's list). -/
def spatialGridBuckets (x y : List ℚ) (n_trees : ℕ) (n_cells_x n_cells_y : ℤ)
    (cell_size : ℚ) : ℤ → List ℕ :=
  (List.range n_trees).foldl (fun b i => fun idx =>
    if idx = getGridIndex n_cells_x n_cells_y cell_size (x.getD i 0) (y.getD i 0)
    then b idx ++ [i] else b idx) (fun _ => [])

/-- The values of the loop `for(d = -cell_radius; d <= cell_radius; d++)`
(empty when cell_radius is negative). -/
def loopRange (cr : ℤ) : List ℤ := (List.range (cr + cr + 1).toNat).map (fun (t : ℕ) => -cr + (t : ℤ))

/-- SpatialGrid::getNearbyPoints: concatenate the buckets of the in-range
cells within cell_radius of the query point's (unclamped) cell. -/
def getNearbyPoints (buckets : ℤ → List ℕ) (n_cells_x n_cells_y : ℤ) (cell_size : ℚ)
    (qx qy radius : ℚ) : List ℕ :=
  let cell_radius := ⌈radius / cell_size⌉
  let cx := ⌊qx / cell_size⌋
  let cy := ⌊qy / cell_size⌋
  (loopRange cell_radius).flatMap (fun dx =>
    (loopRange cell_radius).flatMap (fun dy =>
      if 0 ≤ cx + dx ∧ cx + dx < n_cells_x ∧ 0 ≤ cy + dy ∧ cy + dy < n_cells_y
      then buckets ((cy + dy) * n_cells_x + (cx + dx)) else []))

/-- calcCanopyCoverIndexedCpp of src/src/OptimizedUtilities.cpp: builds a
bucket index with cell size `max(2 * max_radius, 5.0)` and, for each grid
cell, tests only the trees of nearby buckets (stopping at the first
covering tree, i.e. an existence test).  `*max_element` of an empty range
is undefined behaviour, modelled as `none`. -/
def calcCanopyCoverIndexedCpp (x y crown_radius : List ℚ) (plot_size grid_res : ℚ) :
    Option ℚ :=
  match crown_radius.max? with
  | none => none
  | some max_radius =>
    let n_trees := x.length
    let n_cells := n_cellsOf plot_size grid_res
    let cell_size := max (2 * max_radius) 5
    let nx := ⌈plot_size / cell_size⌉
    let buckets := spatialGridBuckets x y n_trees nx nx cell_size
    let covered := ((allCells n_cells).filter (fun c =>
      (getNearbyPoints buckets nx nx cell_size (((c.1 : ℚ) + 1 / 2) * grid_res)
          (((c.2 : ℚ) + 1 / 2) * grid_res) max_radius).any (fun idx =>
        cellDistSqLe c.1 c.2 grid_res (x.getD idx 0) (y.getD idx 0)
          (crown_radius.getD idx 0)))).card
    some ((covered : ℚ) / ((n_cells * n_cells : ℤ) : ℚ))

end OptimizedUtilities

namespace OptimizedUtilitiesOpenMP

/-- calcCanopyCoverParallel of src/src/OptimizedUtilitiesOpenMP.cpp: for
each grid cell (cells are partitioned across OpenMP threads with disjoint
writes, modelled sequentially), test every tree until one covers the cell;
count the covered cells and divide by the total.  n_threads only sets the
thread count and does not affect the result. -/
def calcCanopyCoverParallel (x y crown_radius : List ℚ) (plot_size grid_res : ℚ)
    (n_threads : ℕ) : ℚ :=
  let n_trees := x.length
  let n_cells := OptimizedUtilities.n_cellsOf plot_size grid_res
  let total_cells := n_cells * n_cells
  let covered := ((OptimizedUtilities.allCells n_cells).filter (fun c =>
    (List.range n_trees).any (fun i =>
      OptimizedUtilities.cellDistSqLe c.1 c.2 grid_res (x.getD i 0) (y.getD i 0)
        (crown_radius.getD i 0)))).card
  (covered : ℚ) / ((total_cells : ℤ) : ℚ)

end OptimizedUtilitiesOpenMP

namespace OptimizedUtilities

lemma mem_allCells {n_cells : ℤ} {c : ℤ × ℤ} :
    c ∈ allCells n_cells ↔ 0 ≤ c.1 ∧ c.1 ≤ n_cells - 1 ∧ 0 ≤ c.2 ∧ c.2 ≤ n_cells - 1 := by
  simp [allCells, Finset.mem_product, Finset.mem_Icc, and_assoc]

lemma sq_le_imp_abs_le {a r : ℚ} (hr : 0 ≤ r) (h : a * a ≤ r * r) : -r ≤ a ∧ a ≤ r := by
  constructor <;> nlinarith

lemma floor_le_of_center {g cx r : ℚ} {xi : ℤ} (hg : 0 < g)
    (h : -r ≤ ((xi : ℚ) + 1 / 2) * g - cx) : ⌊(cx - r) / g⌋ ≤ xi := by
  have h1 : (cx - r) / g ≤ (xi : ℚ) + 1 / 2 := by
    rw [div_le_iff hg]
    nlinarith
  have h2 : ⌊(cx - r) / g⌋ ≤ ⌊(xi : ℚ) + 1 / 2⌋ := Int.floor_le_floor h1
  have h3 : ⌊(xi : ℚ) + 1 / 2⌋ = xi := by
    rw [Int.floor_int_add]
    norm_num
  omega

lemma le_ceil_of_center {g cx r : ℚ} {xi : ℤ} (hg : 0 < g)
    (h : ((xi : ℚ) + 1 / 2) * g - cx ≤ r) : xi ≤ ⌈(cx + r) / g⌉ := by
  have h1 : (xi : ℚ) ≤ (cx + r) / g := by
    rw [le_div_iff hg]
    nlinarith
  have h2 := Int.le_ceil ((cx + r) / g)
  exact_mod_cast le_trans h1 h2

/-- For a cell of the coverage grid, membership in a footprint's marked
set is exactly the squared-distance test: the bounding box never excludes
a cell whose center is within the (nonnegative) radius. -/
lemma mem_treeBoxCells_iff {cx cy r g : ℚ} {n_cells : ℤ} {c : ℤ × ℤ}
    (hg : 0 < g) (hr : 0 ≤ r) (hc : c ∈ allCells n_cells) :
    c ∈ treeBoxCells cx cy r n_cells g ↔ cellDistSqLe c.1 c.2 g cx cy r = true := by
  rw [mem_allCells] at hc
  unfold treeBoxCells
  simp only [Finset.mem_filter, Finset.mem_product, Finset.mem_Icc]
  constructor
  · rintro ⟨-, h⟩
    exact h
  · intro h
    unfold cellDistSqLe at h
    rw [decide_eq_true_eq] at h
    have hA2 : ((((c.1 : ℚ) + 1 / 2) * g - cx) * ((((c.1 : ℚ) + 1 / 2) * g - cx)) ≤ r * r) := by
      nlinarith [mul_self_nonneg (((c.2 : ℚ) + 1 / 2) * g - cy)]
    have hB2 : ((((c.2 : ℚ) + 1 / 2) * g - cy) * ((((c.2 : ℚ) + 1 / 2) * g - cy)) ≤ r * r) := by
      nlinarith [mul_self_nonneg (((c.1 : ℚ) + 1 / 2) * g - cx)]
    have hA := sq_le_imp_abs_le hr hA2
    have hB := sq_le_imp_abs_le hr hB2
    obtain ⟨hc1, hc2, hc3, hc4⟩ := hc
    exact ⟨⟨⟨max_le_iff.mpr ⟨hc1, floor_le_of_center hg hA.1⟩,
      le_min_iff.mpr ⟨hc2, le_ceil_of_center hg hA.2⟩⟩,
      max_le_iff.mpr ⟨hc3, floor_le_of_center hg hB.1⟩,
      le_min_iff.mpr ⟨hc4, le_ceil_of_center hg hB.2⟩⟩,
      by unfold cellDistSqLe; rw [decide_eq_true_eq]; exact h⟩

lemma mem_foldl_union {β : Type} [DecidableEq β] (l : List ℕ) (f : ℕ → Finset β)
    (g0 : Finset β) (c : β) :
    c ∈ l.foldl (fun g i => g ∪ f i) g0 ↔ c ∈ g0 ∨ ∃ i ∈ l, c ∈ f i := by
  induction l generalizing g0 with
  | nil => simp
  | cons a t ih =>
    rw [List.foldl_cons, ih]
    simp only [Finset.mem_union, List.mem_cons]
    constructor
    · rintro (⟨h | h⟩ | ⟨i, hi, h⟩)
      · exact Or.inl h
      · exact Or.inr ⟨a, Or.inl rfl, h⟩
      · exact Or.inr ⟨i, Or.inr hi, h⟩
    · rintro (h | ⟨i, rfl | hi, h⟩)
      · exact Or.inl (Or.inl h)
      · exact Or.inl (Or.inr h)
      · exact Or.inr ⟨i, hi, h⟩

/-- The direct and the OpenMP canopy cover agree once every footprint
radius is nonnegative and the resolution is positive. -/
lemma direct_eq_parallel (x y r : List ℚ) (p g : ℚ) (nt : ℕ) (hg : 0 < g)
    (hrpos : ∀ i < x.length, 0 ≤ r.getD i 0) :
    calcCanopyCoverCpp x y r p g = OptimizedUtilitiesOpenMP.calcCanopyCoverParallel x y r p g nt := by
  have hset : ((allCells (n_cellsOf p g)).filter (fun c =>
        c ∈ (List.range x.length).foldl (fun g2 i =>
          g2 ∪ treeBoxCells (x.getD i 0) (y.getD i 0) (r.getD i 0) (n_cellsOf p g) g) ∅))
      = ((allCells (n_cellsOf p g)).filter (fun c =>
        (List.range x.length).any (fun i =>
          cellDistSqLe c.1 c.2 g (x.getD i 0) (y.getD i 0) (r.getD i 0)))) := by
    apply Finset.filter_congr
    intro c hc
    rw [mem_foldl_union]
    simp only [Finset.not_mem_empty, false_or, List.any_eq_true, List.mem_range,
      eq_iff_iff]
    constructor
    · rintro ⟨i, hi, h⟩
      exact ⟨i, hi, (mem_treeBoxCells_iff hg (hrpos i hi) hc).mp h⟩
    · rintro ⟨i, hi, h⟩
      exact ⟨i, hi, (mem_treeBoxCells_iff hg (hrpos i hi) hc).mpr h⟩
  unfold calcCanopyCoverCpp OptimizedUtilitiesOpenMP.calcCanopyCoverParallel
  dsimp only
  rw [hset]

end OptimizedUtilities

namespace OptimizedUtilities

lemma mem_loopRange {cr d : ℤ} : d ∈ loopRange cr ↔ -cr ≤ d ∧ d ≤ cr := by
  unfold loopRange
  constructor
  · intro h
    rcases List.mem_map.mp h with ⟨t, ht, rfl⟩
    rw [List.mem_range] at ht
    omega
  · rintro ⟨h1, h2⟩
    exact List.mem_map.mpr ⟨(d + cr).toNat, List.mem_range.mpr (by omega), by omega⟩

/-- Every entry of a bucket is a valid tree index placed in its own
bucket. -/
lemma spatialGridBuckets_sound {x y : List ℚ} {nx ny : ℤ} {cs : ℚ}
    (n_trees : ℕ) (idx : ℤ) (j : ℕ)
    (h : j ∈ spatialGridBuckets x y n_trees nx ny cs idx) :
    j < n_trees ∧ idx = getGridIndex nx ny cs (x.getD j 0) (y.getD j 0) := by
  induction n_trees generalizing idx with
  | zero => simp [spatialGridBuckets] at h
  | succ n ih =>
    unfold spatialGridBuckets at h ih
    rw [List.range_succ, List.foldl_append, List.foldl_cons, List.foldl_nil] at h
    by_cases hidx : idx = getGridIndex nx ny cs (x.getD n 0) (y.getD n 0)
    · rw [if_pos hidx] at h
      rcases List.mem_append.mp h with h' | h'
      · have := ih idx h'
        exact ⟨by omega, this.2⟩
      · rcases List.mem_singleton.mp h' with rfl
        exact ⟨by omega, hidx⟩
    · rw [if_neg hidx] at h
      have := ih idx h
      exact ⟨by omega, this.2⟩

/-- Every tree index below n_trees is in its own bucket. -/
lemma spatialGridBuckets_complete {x y : List ℚ} {nx ny : ℤ} {cs : ℚ}
    (n_trees : ℕ) (j : ℕ) (hj : j < n_trees) :
    j ∈ spatialGridBuckets x y n_trees nx ny cs
      (getGridIndex nx ny cs (x.getD j 0) (y.getD j 0)) := by
  induction n_trees with
  | zero => omega
  | succ n ih =>
    unfold spatialGridBuckets at ih ⊢
    rw [List.range_succ, List.foldl_append, List.foldl_cons, List.foldl_nil]
    by_cases hj' : j < n
    · by_cases hidx : getGridIndex nx ny cs (x.getD j 0) (y.getD j 0)
          = getGridIndex nx ny cs (x.getD n 0) (y.getD n 0)
      · rw [if_pos hidx]
        exact List.mem_append_left _ (ih hj')
      · rw [if_neg hidx]
        exact ih hj'
    · have hjn : j = n := by omega
      subst hjn
      rw [if_pos rfl]
      exact List.mem_append_right _ (List.mem_singleton.mpr rfl)

/-- Membership in getNearbyPoints: some in-range cell within cell_radius
of the query's cell has j in its bucket. -/
lemma mem_getNearbyPoints {buckets : ℤ → List ℕ} {nx ny : ℤ} {cs qx qy radius : ℚ} {j : ℕ} :
    j ∈ getNearbyPoints buckets nx ny cs qx qy radius
    ↔ ∃ ix iy : ℤ,
        (⌊qx / cs⌋ - ⌈radius / cs⌉ ≤ ix ∧ ix ≤ ⌊qx / cs⌋ + ⌈radius / cs⌉)
        ∧ (⌊qy / cs⌋ - ⌈radius / cs⌉ ≤ iy ∧ iy ≤ ⌊qy / cs⌋ + ⌈radius / cs⌉)
        ∧ (0 ≤ ix ∧ ix < nx ∧ 0 ≤ iy ∧ iy < ny)
        ∧ j ∈ buckets (iy * nx + ix) := by
  unfold getNearbyPoints
  simp only [List.mem_flatMap, mem_loopRange]
  constructor
  · rintro ⟨dx, ⟨hdx1, hdx2⟩, dy, ⟨hdy1, hdy2⟩, h⟩
    by_cases hin : 0 ≤ ⌊qx / cs⌋ + dx ∧ ⌊qx / cs⌋ + dx < nx ∧ 0 ≤ ⌊qy / cs⌋ + dy ∧ ⌊qy / cs⌋ + dy < ny
    · rw [if_pos hin] at h
      exact ⟨⌊qx / cs⌋ + dx, ⌊qy / cs⌋ + dy, ⟨by omega, by omega⟩, ⟨by omega, by omega⟩,
        hin, h⟩
    · rw [if_neg hin] at h
      simp at h
  · rintro ⟨ix, iy, ⟨hix1, hix2⟩, ⟨hiy1, hiy2⟩, hin, h⟩
    refine ⟨ix - ⌊qx / cs⌋, ⟨by omega, by omega⟩, iy - ⌊qy / cs⌋, ⟨by omega, by omega⟩, ?_⟩
    have e1 : ⌊qx / cs⌋ + (ix - ⌊qx / cs⌋) = ix := by omega
    have e2 : ⌊qy / cs⌋ + (iy - ⌊qy / cs⌋) = iy := by omega
    rw [e1, e2, if_pos hin]
    exact h

end OptimizedUtilities

namespace OptimizedUtilities

/-- With cell size at least twice the query radius, the bucket of a point
within `mr` of the query lies within `ceil(mr / cs)` cells of the query's
bucket (in each axis). -/
lemma bucket_coord_in_range {t q mr cs : ℚ} (hcs : 0 < cs) (hmr : 0 ≤ mr)
    (hhalf : 2 * mr ≤ cs) (h : |q - t| ≤ mr) :
    ⌊q / cs⌋ - ⌈mr / cs⌉ ≤ ⌊t / cs⌋ ∧ ⌊t / cs⌋ ≤ ⌊q / cs⌋ + ⌈mr / cs⌉ := by
  by_cases hm0 : mr = 0
  · subst hm0
    rw [abs_le] at h
    have hqt : q = t := by linarith
    subst hqt
    rw [zero_div, Int.ceil_zero]
    omega
  · have hmr' : 0 < mr := lt_of_le_of_ne hmr (Ne.symm hm0)
    have hcr : ⌈mr / cs⌉ = 1 := by
      have h1 : 0 < ⌈mr / cs⌉ := Int.ceil_pos.mpr (div_pos hmr' hcs)
      have h2 : ⌈mr / cs⌉ ≤ 1 := Int.ceil_le.mpr (by push_cast; rw [div_le_one hcs]; linarith)
      omega
    rw [hcr]
    rw [abs_le] at h
    constructor
    · have hd : q / cs ≤ t / cs + 1 := by
        have he : (t + cs) / cs = t / cs + 1 := by field_simp
        have hq : q / cs ≤ (t + cs) / cs := by
          rw [div_le_div_iff hcs hcs]
          nlinarith
        linarith [he ▸ hq]
      have h3 := Int.floor_le_floor hd
      rw [Int.floor_add_one] at h3
      omega
    · have hd : t / cs ≤ q / cs + 1 := by
        have he : (q + cs) / cs = q / cs + 1 := by field_simp
        have hq : t / cs ≤ (q + cs) / cs := by
          rw [div_le_div_iff hcs hcs]
          nlinarith
        linarith [he ▸ hq]
      have h3 := Int.floor_le_floor hd
      rw [Int.floor_add_one] at h3
      omega

lemma getD_eq_getElem_of_lt (l : List ℚ) (k : ℕ) (hk : k < l.length) :
    l.getD k 0 = l[k] := by
  rw [List.getD_eq_getElem?_getD, List.getElem?_eq_getElem hk]
  rfl

/-- The spatially indexed per-cell test agrees with the exhaustive
per-cell test: the bucket structure never misses a covering tree when
every point lies in `[0, p)` and every radius is nonnegative. -/
lemma indexed_filter_eq (x y r : List ℚ) (p g : ℚ) (mr : ℚ)
    (hmax : r.max? = some mr)
    (hrlen : r.length = x.length)
    (hp : 0 < p)
    (hxin : ∀ i < x.length, 0 ≤ x.getD i 0 ∧ x.getD i 0 < p)
    (hyin : ∀ i < x.length, 0 ≤ y.getD i 0 ∧ y.getD i 0 < p)
    (hrpos : ∀ i < x.length, 0 ≤ r.getD i 0) :
    ((allCells (n_cellsOf p g)).filter (fun c =>
      (getNearbyPoints
          (spatialGridBuckets x y x.length ⌈p / max (2 * mr) 5⌉ ⌈p / max (2 * mr) 5⌉
            (max (2 * mr) 5))
          ⌈p / max (2 * mr) 5⌉ ⌈p / max (2 * mr) 5⌉ (max (2 * mr) 5)
          (((c.1 : ℚ) + 1 / 2) * g) (((c.2 : ℚ) + 1 / 2) * g) mr).any (fun idx =>
        cellDistSqLe c.1 c.2 g (x.getD idx 0) (y.getD idx 0) (r.getD idx 0))))
    = ((allCells (n_cellsOf p g)).filter (fun c =>
      (List.range x.length).any (fun i =>
        cellDistSqLe c.1 c.2 g (x.getD i 0) (y.getD i 0) (r.getD i 0)))) := by
  have hmax' := (@List.max?_eq_some_iff ℚ mr _ _ ⟨fun h1 h2 => le_antisymm h1 h2⟩
    (fun a => le_refl a) (fun a b => max_choice a b) (fun a b c => max_le_iff)).mp hmax
  have hmr0 : 0 ≤ mr := by
    rcases List.mem_iff_getElem.mp hmax'.1 with ⟨k, hk, hkeq⟩
    have h1 := hrpos k (by omega)
    rw [getD_eq_getElem_of_lt r k hk] at h1
    rw [← hkeq]
    exact h1
  have relem : ∀ i < x.length, r.getD i 0 ≤ mr := by
    intro i hi
    rw [getD_eq_getElem_of_lt r i (by omega)]
    exact hmax'.2 _ (List.getElem_mem _)
  have hcs : (0 : ℚ) < max (2 * mr) 5 :=
    lt_of_lt_of_le (by norm_num) (le_max_right (2 * mr) 5)
  have hhalf : 2 * mr ≤ max (2 * mr) 5 := le_max_left (2 * mr) 5
  have hpnx : p ≤ (⌈p / max (2 * mr) 5⌉ : ℚ) * max (2 * mr) 5 := by
    have h1 := Int.le_ceil (p / max (2 * mr) 5)
    rw [div_le_iff hcs] at h1
    exact h1
  apply Finset.filter_congr
  intro c hc
  rw [List.any_eq_true, List.any_eq_true]
  constructor
  · rintro ⟨j, hjmem, hj⟩
    rcases mem_getNearbyPoints.mp hjmem with ⟨ix, iy, _, _, _, hbucket⟩
    have hs := spatialGridBuckets_sound x.length _ j hbucket
    exact ⟨j, List.mem_range.mpr hs.1, hj⟩
  · rintro ⟨i, hi, hcov⟩
    rw [List.mem_range] at hi
    refine ⟨i, ?_, hcov⟩
    have hcov' := hcov
    unfold cellDistSqLe at hcov'
    rw [decide_eq_true_eq] at hcov'
    have hri : 0 ≤ r.getD i 0 := hrpos i hi
    have hA2 : ((((c.1 : ℚ) + 1 / 2) * g - x.getD i 0)
        * ((((c.1 : ℚ) + 1 / 2) * g - x.getD i 0)) ≤ r.getD i 0 * r.getD i 0) := by
      nlinarith [mul_self_nonneg (((c.2 : ℚ) + 1 / 2) * g - y.getD i 0)]
    have hB2 : ((((c.2 : ℚ) + 1 / 2) * g - y.getD i 0)
        * ((((c.2 : ℚ) + 1 / 2) * g - y.getD i 0)) ≤ r.getD i 0 * r.getD i 0) := by
      nlinarith [mul_self_nonneg (((c.1 : ℚ) + 1 / 2) * g - x.getD i 0)]
    have hA := sq_le_imp_abs_le hri hA2
    have hB := sq_le_imp_abs_le hri hB2
    have hAmr : |(((c.1 : ℚ) + 1 / 2) * g) - x.getD i 0| ≤ mr := by
      rw [abs_le]
      constructor <;> [linarith [relem i hi, hA.1]; linarith [relem i hi, hA.2]]
    have hBmr : |(((c.2 : ℚ) + 1 / 2) * g) - y.getD i 0| ≤ mr := by
      rw [abs_le]
      constructor <;> [linarith [relem i hi, hB.1]; linarith [relem i hi, hB.2]]
    have hxr := bucket_coord_in_range hcs hmr0 hhalf hAmr
    have hyr := bucket_coord_in_range hcs hmr0 hhalf hBmr
    have hxi := hxin i hi
    have hyi := hyin i hi
    have hbx0 : 0 ≤ ⌊x.getD i 0 / max (2 * mr) 5⌋ :=
      Int.floor_nonneg.mpr (div_nonneg hxi.1 (le_of_lt hcs))
    have hby0 : 0 ≤ ⌊y.getD i 0 / max (2 * mr) 5⌋ :=
      Int.floor_nonneg.mpr (div_nonneg hyi.1 (le_of_lt hcs))
    have hbxlt : ⌊x.getD i 0 / max (2 * mr) 5⌋ < ⌈p / max (2 * mr) 5⌉ := by
      rw [Int.floor_lt]
      rw [div_lt_iff hcs]
      linarith [hxi.2]
    have hbylt : ⌊y.getD i 0 / max (2 * mr) 5⌋ < ⌈p / max (2 * mr) 5⌉ := by
      rw [Int.floor_lt]
      rw [div_lt_iff hcs]
      linarith [hyi.2]
    apply mem_getNearbyPoints.mpr
    refine ⟨⌊x.getD i 0 / max (2 * mr) 5⌋, ⌊y.getD i 0 / max (2 * mr) 5⌋,
      ⟨hxr.1, hxr.2⟩, ⟨hyr.1, hyr.2⟩, ⟨hbx0, hbxlt, hby0, hbylt⟩, ?_⟩
    have hcomp := @spatialGridBuckets_complete x y ⌈p / max (2 * mr) 5⌉
      ⌈p / max (2 * mr) 5⌉ (max (2 * mr) 5) x.length i hi
    unfold getGridIndex at hcomp
    rw [min_eq_right (by omega : ⌊x.getD i 0 / max (2 * mr) 5⌋ ≤ ⌈p / max (2 * mr) 5⌉ - 1),
      min_eq_right (by omega : ⌊y.getD i 0 / max (2 * mr) 5⌋ ≤ ⌈p / max (2 * mr) 5⌉ - 1)]
      at hcomp
    exact hcomp

end OptimizedUtilities

/-- C1: the three canopy-cover variants (direct calcCanopyCoverCpp,
bucket-indexed calcCanopyCoverIndexedCpp, cell-parallel
calcCanopyCoverParallel) return exactly equal covered-cell fractions —
provably so under the amended preconditions that every footprint center
lies in [0, plot_size) and every crown radius is nonnegative (the indexed
variant additionally returns `some` of that common value rather than
hitting the undefined max_element of an empty range, thanks to n ≥ 1).
The claim as stated, quantifying only over n ≥ 1, plot_size > 0 and
grid_res > 0, is false: see the counterexample with a negative radius. -/
theorem claim1_canopy_cover_variants_agree (x y r : List ℚ) (p g : ℚ) (nt : ℕ)
    (hrlen : r.length = x.length) (hn : 1 ≤ x.length) (hp : 0 < p) (hg : 0 < g)
    (hxin : ∀ i < x.length, 0 ≤ x.getD i 0 ∧ x.getD i 0 < p)
    (hyin : ∀ i < x.length, 0 ≤ y.getD i 0 ∧ y.getD i 0 < p)
    (hrpos : ∀ i < x.length, 0 ≤ r.getD i 0) :
    OptimizedUtilities.calcCanopyCoverCpp x y r p g
      = OptimizedUtilitiesOpenMP.calcCanopyCoverParallel x y r p g nt
    ∧ OptimizedUtilities.calcCanopyCoverIndexedCpp x y r p g
      = some (OptimizedUtilities.calcCanopyCoverCpp x y r p g) := by
  have hd := OptimizedUtilities.direct_eq_parallel x y r p g nt hg hrpos
  refine ⟨hd, ?_⟩
  have hr_ne : r ≠ [] := by
    intro h0
    rw [h0] at hrlen
    simp at hrlen
    omega
  obtain ⟨mr, hmax⟩ : ∃ mr, r.max? = some mr := by
    cases hmr : r.max? with
    | none => exact absurd (List.max?_eq_none_iff.mp hmr) hr_ne
    | some m => exact ⟨m, rfl⟩
  rw [hd]
  unfold OptimizedUtilities.calcCanopyCoverIndexedCpp
    OptimizedUtilitiesOpenMP.calcCanopyCoverParallel
  rw [hmax]
  dsimp only
  rw [OptimizedUtilities.indexed_filter_eq x y r p g mr hmax hrlen hp hxin hyin hrpos]

/-- C1 witness: one in-plot footprint with positive radius, on which the
amended equivalence theorem applies and all hypotheses hold. -/
theorem claim1_witness :
    OptimizedUtilities.calcCanopyCoverCpp [1/2] [1/2] [1/2] 2 1
      = OptimizedUtilitiesOpenMP.calcCanopyCoverParallel [1/2] [1/2] [1/2] 2 1 0
    ∧ OptimizedUtilities.calcCanopyCoverIndexedCpp [1/2] [1/2] [1/2] 2 1
      = some (OptimizedUtilities.calcCanopyCoverCpp [1/2] [1/2] [1/2] 2 1) := by
  have hin : ∀ i < ([(1 : ℚ)/2]).length,
      0 ≤ ([(1 : ℚ)/2]).getD i 0 ∧ ([(1 : ℚ)/2]).getD i 0 < 2 := by
    intro i hi
    have h0 : i = 0 := by simpa using hi
    subst h0
    norm_num
  have hpos : ∀ i < ([(1 : ℚ)/2]).length, 0 ≤ ([(1 : ℚ)/2]).getD i 0 := by
    intro i hi
    have h0 : i = 0 := by simpa using hi
    subst h0
    norm_num
  have h := claim1_canopy_cover_variants_agree [1/2] [1/2] [1/2] 2 1 0
    rfl (by norm_num) (by norm_num) (by norm_num) hin hin hpos
  exact h

/-- C1 counterexample: with a negative crown radius (allowed by the
claim's quantifier, which only requires n ≥ 1, plot_size > 0 and
grid_res > 0), the direct variant marks nothing (its bounding box is
empty) while the parallel variant's squared test r*r turns the footprint
into a genuine disk: 0 versus 3/4. -/
theorem claim1_counterexample :
    OptimizedUtilities.calcCanopyCoverCpp [1/2] [1/2] [-1] 2 1 = 0
    ∧ OptimizedUtilitiesOpenMP.calcCanopyCoverParallel [1/2] [1/2] [-1] 2 1 0 = 3/4 := by
  constructor
  · simp only [OptimizedUtilities.calcCanopyCoverCpp, OptimizedUtilities.treeBoxCells,
      OptimizedUtilities.allCells, OptimizedUtilities.n_cellsOf,
      OptimizedUtilities.cellDistSqLe]
    norm_num [List.range_succ, Finset.filter_eq_empty_iff]
  · simp only [OptimizedUtilitiesOpenMP.calcCanopyCoverParallel,
      OptimizedUtilities.allCells, OptimizedUtilities.n_cellsOf,
      OptimizedUtilities.cellDistSqLe]
    norm_num [List.range_succ]
    have hfc : Finset.filter (fun c : ℤ × ℤ => ((c.1 : ℚ) * c.1 + c.2 * c.2 ≤ 1))
        (Finset.Icc 0 1 ×ˢ Finset.Icc 0 1)
        = Finset.filter (fun c : ℤ × ℤ => (c.1 * c.1 + c.2 * c.2 ≤ 1))
          (Finset.Icc 0 1 ×ˢ Finset.Icc 0 1) := by
      apply Finset.filter_congr
      intro c hc
      norm_cast
    have hcard : (Finset.filter (fun c : ℤ × ℤ => (c.1 * c.1 + c.2 * c.2 ≤ 1))
        (Finset.Icc 0 1 ×ˢ Finset.Icc 0 1)).card = 3 := by decide
    rw [hfc, hcard]
    norm_num

/-- C8: on empty footprint arrays the direct and cell-parallel variants
do return coverage 0 for every plot_size and grid_res, but the indexed
variant first computes `*max_element(crown_radius.begin(), ...)` on an
empty range — undefined behaviour (modelled as `none`) — so it does not
return 0: the claim fails for calcCanopyCoverIndexedCpp. -/
theorem claim8_canopy_cover_empty (p g : ℚ) (nt : ℕ) :
    OptimizedUtilities.calcCanopyCoverCpp [] [] [] p g = 0
    ∧ OptimizedUtilitiesOpenMP.calcCanopyCoverParallel [] [] [] p g nt = 0
    ∧ OptimizedUtilities.calcCanopyCoverIndexedCpp [] [] [] p g = none := by
  refine ⟨?_, ?_, rfl⟩
  · simp [OptimizedUtilities.calcCanopyCoverCpp]
  · simp [OptimizedUtilitiesOpenMP.calcCanopyCoverParallel]

/-- C8 witness: the empty-input divergence at plot_size = 1, grid_res = 1. -/
theorem claim8_witness :
    OptimizedUtilities.calcCanopyCoverCpp [] [] [] 1 1 = 0
    ∧ OptimizedUtilitiesOpenMP.calcCanopyCoverParallel [] [] [] 1 1 0 = 0
    ∧ OptimizedUtilities.calcCanopyCoverIndexedCpp [] [] [] 1 1 = none :=
  claim8_canopy_cover_empty 1 1 0

lemma list_toFinset_range (n : ℕ) : (List.range n).toFinset = Finset.range n := by
  ext a
  simp [List.mem_toFinset, List.mem_range, Finset.mem_range]

lemma list_sum_flatMap {α : Type} (l : List α) (f : α → List ℝ) :
    (l.flatMap f).sum = (l.map (fun a => (f a).sum)).sum := by
  induction l with
  | nil => rfl
  | cons a t ih => simp [List.flatMap_cons, ih]

lemma foldl_add_eq_sum {α : Type} (l : List α) (f : α → ℝ) (a : ℝ) :
    l.foldl (fun acc p => acc + f p) a = a + (l.map f).sum := by
  induction l generalizing a with
  | nil => simp
  | cons b t ih => simp [List.foldl_cons, ih, add_assoc]

lemma range_filter_lt_eq_Ico (n i : ℕ) :
    Finset.filter (fun j => i < j) (Finset.range n) = Finset.Ico (i + 1) n := by
  ext a
  simp only [Finset.mem_filter, Finset.mem_range, Finset.mem_Ico]
  omega

/-- A sum over the loop pairs equals the double Finset sum over i < j. -/
lemma pairsL_sum_eq (n : ℕ) (F : ℕ × ℕ → ℝ) :
    ((pairsL n).map F).sum
    = ∑ i ∈ Finset.range n, ∑ j ∈ Finset.Ico (i + 1) n, F (i, j) := by
  unfold pairsL
  rw [List.map_flatMap, list_sum_flatMap]
  have houter : ∀ g : ℕ → ℝ, ((List.range n).map g).sum = ∑ i ∈ Finset.range n, g i := by
    intro g
    rw [← List.sum_toFinset g (List.nodup_range n), list_toFinset_range]
  rw [houter]
  apply Finset.sum_congr rfl
  intro i _
  have hfil : Finset.filter (fun j => (decide (i < j) = true)) (Finset.range n)
      = Finset.Ico (i + 1) n := by
    rw [← range_filter_lt_eq_Ico n i]
    apply Finset.filter_congr
    intro j _
    simp
  have hinner : ∀ f : ℕ → ℝ,
      (((List.range n).filter (fun j => decide (i < j))).map f).sum
      = ∑ j ∈ Finset.Ico (i + 1) n, f j := by
    intro f
    rw [← List.sum_toFinset f ((List.nodup_range n).filter _), List.toFinset_filter,
      list_toFinset_range, hfil]
  rw [List.map_map]
  exact hinner (F ∘ fun j => (i, j))

namespace OptimizedUtilities

/-- The planar (non-toroidal) center distance used by
calcCrownOverlapCpp: sqrt(dx*dx + dy*dy). -/
noncomputable def planarDist (x y : List ℝ) (i j : ℕ) : ℝ :=
  Real.sqrt ((x.getD i 0 - x.getD j 0) * (x.getD i 0 - x.getD j 0)
    + (y.getD i 0 - y.getD j 0) * (y.getD i 0 - y.getD j 0))

/-- The contribution of one pair in calcCrownOverlapCpp: 0 unless
dist < r1 + r2; full containment π·min²  when dist ≤ |r1 − r2|; otherwise
the circular-lens formula with acos terms and the 0.5·sqrt triangle term,
exactly as in the source. -/
noncomputable def pairOverlap (x y r : List ℝ) (p : ℕ × ℕ) : ℝ :=
  let dist := planarDist x y p.1 p.2
  let r1 := r.getD p.1 0
  let r2 := r.getD p.2 0
  if dist < r1 + r2 then
    if dist ≤ |r1 - r2| then Real.pi * min r1 r2 * min r1 r2
    else
      r1 * r1 * Real.arccos ((dist * dist + r1 * r1 - r2 * r2) / (2 * dist * r1))
      + r2 * r2 * Real.arccos ((dist * dist + r2 * r2 - r1 * r1) / (2 * dist * r2))
      - 0.5 * Real.sqrt ((r1 + r2 + dist) * (r1 + r2 - dist)
          * (r1 - r2 + dist) * (-r1 + r2 + dist))
  else 0

/-- calcCrownOverlapCpp of src/src/OptimizedUtilities.cpp: nested loops
over pairs i < j accumulating the per-pair overlap into total_overlap. -/
noncomputable def calcCrownOverlapCpp (x y crown_radius : List ℝ) : ℝ :=
  (pairsL x.length).foldl (fun acc p => acc + pairOverlap x y crown_radius p) 0

end OptimizedUtilities

/-- Modelled from the spec's words (claim C5's case list) for comparison
with the source's pairOverlap: 0 when r1 + r2 ≤ d; π·min(r1,r2)² when
d ≤ |r1 − r2|; otherwise the circular-lens formula. -/
noncomputable def specPairOverlap (d r1 r2 : ℝ) : ℝ :=
  if r1 + r2 ≤ d then 0
  else if d ≤ |r1 - r2| then Real.pi * min r1 r2 ^ 2
  else r1 ^ 2 * Real.arccos ((d ^ 2 + r1 ^ 2 - r2 ^ 2) / (2 * d * r1))
    + r2 ^ 2 * Real.arccos ((d ^ 2 + r2 ^ 2 - r1 ^ 2) / (2 * d * r2))
    - 0.5 * Real.sqrt ((r1 + r2 + d) * (-d + r1 + r2) * (d - r1 + r2) * (d + r1 - r2))

lemma pairOverlap_eq_spec (x y r : List ℝ) (p : ℕ × ℕ) :
    OptimizedUtilities.pairOverlap x y r p
    = specPairOverlap (OptimizedUtilities.planarDist x y p.1 p.2)
        (r.getD p.1 0) (r.getD p.2 0) := by
  unfold OptimizedUtilities.pairOverlap specPairOverlap
  dsimp only
  set d := OptimizedUtilities.planarDist x y p.1 p.2 with hd
  set r1 := r.getD p.1 0 with hr1
  set r2 := r.getD p.2 0 with hr2
  by_cases h1 : d < r1 + r2
  · rw [if_pos h1, if_neg (not_le.mpr h1)]
    by_cases h2 : d ≤ |r1 - r2|
    · rw [if_pos h2, if_pos h2]
      ring
    · rw [if_neg h2, if_neg h2]
      have e1 : (d * d + r1 * r1 - r2 * r2) / (2 * d * r1)
          = (d ^ 2 + r1 ^ 2 - r2 ^ 2) / (2 * d * r1) := by ring_nf
      have e2 : (d * d + r2 * r2 - r1 * r1) / (2 * d * r2)
          = (d ^ 2 + r2 ^ 2 - r1 ^ 2) / (2 * d * r2) := by ring_nf
      have e3 : (r1 + r2 + d) * (r1 + r2 - d) * (r1 - r2 + d) * (-r1 + r2 + d)
          = (r1 + r2 + d) * (-d + r1 + r2) * (d - r1 + r2) * (d + r1 - r2) := by ring
      rw [e1, e2, e3]
      ring
  · rw [if_neg h1, if_pos (not_lt.mp h1)]

/-- C5: calcCrownOverlapCpp is exactly the sum, over unordered pairs
i < j taken once each, of the spec's per-pair overlap area (0 / full
containment π·min(r1,r2)² / circular lens), under the planar distance. -/
theorem claim5_crown_overlap_lens_sum (x y r : List ℝ) :
    OptimizedUtilities.calcCrownOverlapCpp x y r
    = ∑ i ∈ Finset.range x.length, ∑ j ∈ Finset.Ico (i + 1) x.length,
        specPairOverlap (OptimizedUtilities.planarDist x y i j)
          (r.getD i 0) (r.getD j 0) := by
  unfold OptimizedUtilities.calcCrownOverlapCpp
  rw [foldl_add_eq_sum, zero_add]
  have hmap : (pairsL x.length).map (OptimizedUtilities.pairOverlap x y r)
      = (pairsL x.length).map (fun p =>
          specPairOverlap (OptimizedUtilities.planarDist x y p.1 p.2)
            (r.getD p.1 0) (r.getD p.2 0)) := by
    apply List.map_congr_left
    intro p _
    exact pairOverlap_eq_spec x y r p
  rw [hmap, pairsL_sum_eq]

namespace OptimizedUtilities

/-- calcDistributionEnergy of src/src/OptimizedUtilities.cpp: loops i over
0..values.size()-1 accumulating weights[i] * diff * diff with
diff = values[i] - targets[i].  There is no length validation; an
out-of-bounds read of targets or weights is undefined behaviour, modelled
as `none`. -/
def calcDistributionEnergy (values targets weights : List ℚ) : Option ℚ :=
  (List.range values.length).foldl (fun acc i =>
    match acc, targets[i]?, weights[i]? with
    | some e, some t, some w =>
      some (e + w * (values.getD i 0 - t) * (values.getD i 0 - t))
    | _, _, _ => none) (some 0)

/-- calcEnergyComponentsCpp of src/src/OptimizedUtilities.cpp: accumulates
per-component energies in a std::map (operator[] default-initialises to 0)
and emits (component_id, energy) pairs in ascending key order.  No length
validation: out-of-bounds reads are undefined behaviour, modelled none. -/
def calcEnergyComponentsCpp (metrics targets weights : List ℚ)
    (component_ids : List ℤ) : Option (List (ℤ × ℚ)) :=
  match (List.range metrics.length).foldl
    (fun (acc : Option ((ℤ → ℚ) × Finset ℤ)) (i : ℕ) =>
    match acc, component_ids[i]?, targets[i]?, weights[i]? with
    | some fk, some cid, some t, some w =>
      some (fun k => if k = cid
          then fk.1 cid + w * (metrics.getD i 0 - t) * (metrics.getD i 0 - t)
          else fk.1 k,
        insert cid fk.2)
    | _, _, _, _ => none) (some ((fun _ => 0 : ℤ → ℚ), (∅ : Finset ℤ))) with
  | none => none
  | some fk => some ((fk.2.sort (· ≤ ·)).map (fun k => (k, fk.1 k)))

end OptimizedUtilities

namespace OptimizedUtilities

lemma distEnergy_foldl (values targets weights : List ℚ) :
    ∀ n, n ≤ targets.length → n ≤ weights.length → ∀ e0 : ℚ,
    (List.range n).foldl (fun acc i =>
      match acc, targets[i]?, weights[i]? with
      | some e, some t, some w =>
        some (e + w * (values.getD i 0 - t) * (values.getD i 0 - t))
      | _, _, _ => none) (some e0)
    = some (e0 + ∑ i ∈ Finset.range n,
        weights.getD i 0 * (values.getD i 0 - targets.getD i 0)
          * (values.getD i 0 - targets.getD i 0)) := by
  intro n
  induction n with
  | zero =>
    intro _ _ e0
    simp
  | succ m ih =>
    intro ht hw e0
    rw [List.range_succ, List.foldl_append, ih (by omega) (by omega) e0, List.foldl_cons,
      List.foldl_nil]
    have hT : targets[m]? = some (targets.getD m 0) := by
      rw [List.getElem?_eq_getElem (by omega), getD_eq_getElem_of_lt targets m (by omega)]
    have hW : weights[m]? = some (weights.getD m 0) := by
      rw [List.getElem?_eq_getElem (by omega), getD_eq_getElem_of_lt weights m (by omega)]
    rw [hT, hW]
    dsimp only
    rw [Finset.sum_range_succ]
    exact congrArg some (by ring)

lemma compEnergy_foldl_isSome (metrics targets weights : List ℚ) (cids : List ℤ) :
    ∀ n, n ≤ cids.length → n ≤ targets.length → n ≤ weights.length →
    ∀ fk0 : (ℤ → ℚ) × Finset ℤ,
    ∃ fk, (List.range n).foldl
      (fun (acc : Option ((ℤ → ℚ) × Finset ℤ)) (i : ℕ) =>
      match acc, cids[i]?, targets[i]?, weights[i]? with
      | some fk, some cid, some t, some w =>
        some (fun k => if k = cid
            then fk.1 cid + w * (metrics.getD i 0 - t) * (metrics.getD i 0 - t)
            else fk.1 k,
          insert cid fk.2)
      | _, _, _, _ => none) (some fk0) = some fk := by
  intro n
  induction n with
  | zero =>
    intro _ _ _ fk0
    exact ⟨fk0, rfl⟩
  | succ m ih =>
    intro hc ht hw fk0
    rcases ih (by omega) (by omega) (by omega) fk0 with ⟨fk, hfk⟩
    rw [List.range_succ, List.foldl_append, hfk, List.foldl_cons, List.foldl_nil]
    rw [List.getElem?_eq_getElem (show m < cids.length by omega),
      List.getElem?_eq_getElem (show m < targets.length by omega),
      List.getElem?_eq_getElem (show m < weights.length by omega)]
    exact ⟨_, rfl⟩

end OptimizedUtilities

/-- C7: the energy reducers perform NO length validation.  Whenever the
other arrays are merely at least as long as the first (values/metrics) —
equal lengths being a special case — both calls return a numeric result:
calcDistributionEnergy returns the weighted sum of squared differences
over i < values.length, and calcEnergyComponentsCpp returns a list.  A
length mismatch in which values is the shortest array therefore does NOT
fail (see the counterexample); a mismatch making another array shorter is
an out-of-bounds read (undefined behaviour), not a reported DomainError. -/
theorem claim7_energy_reducers_no_length_check (values targets weights : List ℚ)
    (cids : List ℤ)
    (ht : values.length ≤ targets.length) (hw : values.length ≤ weights.length)
    (hc : values.length ≤ cids.length) :
    OptimizedUtilities.calcDistributionEnergy values targets weights
      = some (∑ i ∈ Finset.range values.length,
          weights.getD i 0 * (values.getD i 0 - targets.getD i 0)
            * (values.getD i 0 - targets.getD i 0))
    ∧ (OptimizedUtilities.calcEnergyComponentsCpp values targets weights cids).isSome = true := by
  constructor
  · unfold OptimizedUtilities.calcDistributionEnergy
    rw [OptimizedUtilities.distEnergy_foldl values targets weights values.length ht hw 0,
      zero_add]
  · unfold OptimizedUtilities.calcEnergyComponentsCpp
    rcases OptimizedUtilities.compEnergy_foldl_isSome values targets weights cids
      values.length hc ht hw ((fun _ => 0 : ℤ → ℚ), (∅ : Finset ℤ)) with ⟨fk, hfk⟩
    rw [hfk]
    rfl

/-- C7 witness: equal-length inputs on which the reducers return numeric
results; the distribution energy evaluates to 3. -/
theorem claim7_witness :
    OptimizedUtilities.calcDistributionEnergy [1, 2] [1, 1] [2, 3] = some 3
    ∧ (OptimizedUtilities.calcEnergyComponentsCpp [1, 2] [1, 1] [2, 3] [0, 0]).isSome
      = true := by
  have h := claim7_energy_reducers_no_length_check [1, 2] [1, 1] [2, 3] [0, 0]
    (by norm_num) (by norm_num) (by norm_num)
  refine ⟨?_, h.2⟩
  rw [h.1]
  norm_num [Finset.sum_range_succ]

/-- C7 counterexample: arrays of pairwise different lengths (1, 2, 3 and
1, 2, 3, 2) on which both reducers succeed with numeric results instead
of failing: no DomainError is ever reported. -/
theorem claim7_counterexample :
    ([(1 : ℚ)] : List ℚ).length ≠ ([(1 : ℚ), 2] : List ℚ).length
    ∧ OptimizedUtilities.calcDistributionEnergy [1] [1, 2] [1, 1, 1] = some 0
    ∧ OptimizedUtilities.calcEnergyComponentsCpp [1] [1, 2] [1, 1, 1] [0, 5]
      = some [(0, 0)] := by
  refine ⟨by simp, ?_, ?_⟩
  · simp [OptimizedUtilities.calcDistributionEnergy, List.range_succ]
  · simp [OptimizedUtilities.calcEnergyComponentsCpp, List.range_succ]

lemma calcCE_singleton (xmax ymax a b : ℝ) :
    NumericUtilities.calcCE xmax ymax [a] [b]
      = 1000 / (0.5 * Real.sqrt (xmax * ymax / 1)) := by
  unfold NumericUtilities.calcCE
  dsimp only
  rw [NumericUtilities.findNeighbours_heapVal]
  rw [show ([a] : List ℝ).length = 1 from rfl]
  rw [Finset.sum_range_one]
  have hnd : NumericUtilities.neighborDists xmax ymax [a] [b] 0 = [] := by
    unfold NumericUtilities.neighborDists
    simp
  rw [hnd]
  have hhv : NumericUtilities.heapVal 1 ([] : List ℝ) = 1000 := by
    unfold NumericUtilities.heapVal
    rw [List.append_nil]
    rw [show List.replicate (1 + 1) NumericUtilities.DUMMY_LARGE_DISTANCE
        = [NumericUtilities.DUMMY_LARGE_DISTANCE,
           NumericUtilities.DUMMY_LARGE_DISTANCE] from rfl]
    have hsorted : ([NumericUtilities.DUMMY_LARGE_DISTANCE,
        NumericUtilities.DUMMY_LARGE_DISTANCE] : List ℝ).Sorted (· ≤ ·) := by
      apply List.sorted_cons.mpr
      refine ⟨?_, List.sorted_singleton _⟩
      intro b hb
      rw [List.mem_singleton.mp hb]
    rw [sortL_of_sorted hsorted]
    rw [show ([NumericUtilities.DUMMY_LARGE_DISTANCE,
        NumericUtilities.DUMMY_LARGE_DISTANCE] : List ℝ).take (1 + 1)
        = [NumericUtilities.DUMMY_LARGE_DISTANCE,
           NumericUtilities.DUMMY_LARGE_DISTANCE] from rfl]
    dsimp only [pqPop, pqTop]
    rw [show ([NumericUtilities.DUMMY_LARGE_DISTANCE,
        NumericUtilities.DUMMY_LARGE_DISTANCE] : List ℝ).dropLast
        = [NumericUtilities.DUMMY_LARGE_DISTANCE] from rfl]
    rw [if_neg (by simp)]
    rfl
  rw [hhv]
  norm_num

/-- C4: none of the named entry points reports an error — there is no
validation anywhere.  calcCE on a single point (n = 1) silently returns
the sentinel ratio 1000 / (0.5·sqrt(xmax·ymax/1)); calcCrownOverlapCpp on
empty arrays silently returns 0; the direct and parallel canopy variants
silently return 0; the indexed canopy variant hits undefined behaviour
(max_element of an empty range, modelled `none`) — also not a reported
DomainError.  The claim that these calls fail explicitly is false. -/
theorem claim4_no_domain_error (xmax ymax a b : ℝ) (p g : ℚ) (nt : ℕ) :
    NumericUtilities.calcCE xmax ymax [a] [b]
      = 1000 / (0.5 * Real.sqrt (xmax * ymax / 1))
    ∧ OptimizedUtilities.calcCrownOverlapCpp [] [] [] = 0
    ∧ OptimizedUtilities.calcCanopyCoverCpp [] [] [] p g = 0
    ∧ OptimizedUtilitiesOpenMP.calcCanopyCoverParallel [] [] [] p g nt = 0
    ∧ OptimizedUtilities.calcCanopyCoverIndexedCpp [] [] [] p g = none := by
  refine ⟨calcCE_singleton xmax ymax a b, rfl, ?_, ?_, rfl⟩
  · simp [OptimizedUtilities.calcCanopyCoverCpp]
  · simp [OptimizedUtilitiesOpenMP.calcCanopyCoverParallel]

/-- C4 counterexample: two concrete silent returns that the claim says
must instead fail with a DomainError: calcCE on a single point returns
200 on a 10 x 10 plot, and calcCrownOverlapCpp on empty arrays returns
exactly the "silent 0" the spec forbids. -/
theorem claim4_counterexample :
    NumericUtilities.calcCE 10 10 [0] [0] = 200
    ∧ OptimizedUtilities.calcCrownOverlapCpp [] [] [] = 0 := by
  refine ⟨?_, rfl⟩
  rw [calcCE_singleton 10 10 0 0]
  rw [show (10 : ℝ) * 10 / 1 = 100 by norm_num]
  rw [NumericUtilities.sqrt_eval (by norm_num : (0:ℝ) ≤ 10) (by norm_num)]
  norm_num

/-- C9 witness: swapping the first two points of a 2-point pattern leaves
calcCE unchanged. -/
theorem claim9_witness :
    NumericUtilities.calcCE 10 10
      (NumericUtilities.reindex (Equiv.swap 0 1) 2 [0, 3])
      (NumericUtilities.reindex (Equiv.swap 0 1) 2 [0, 4])
    = NumericUtilities.calcCE 10 10 [0, 3] [0, 4] := by
  have hfix : ∀ i, ([(0 : ℝ), 3] : List ℝ).length ≤ i → Equiv.swap 0 1 i = i := by
    intro i hi
    simp only [List.length_cons, List.length_nil] at hi
    apply Equiv.swap_apply_of_ne_of_ne <;> omega
  exact NumericUtilities.claim9_calcCE_perm_invariant 10 10 [0, 3] [0, 4]
    (Equiv.swap 0 1) hfix (by norm_num) (by norm_num) (by norm_num)
